import Mathlib

/-!
Shallow embedding of `src/content_parser.py` (repository `ai-content-strategist`).

The Python module parses free-form AI-generated text with a fixed table of
`re` patterns.  Here every regular expression of the source is hand-compiled
into an executable character-list scanner with the same semantics
(leftmost search, greedy/lazy quantifier behaviour including the
backtracking that is actually reachable for the given pattern, Python's
`re.IGNORECASE` as ASCII case folding, `$` in non-MULTILINE mode matching
at the end of the string or just before a final trailing newline).
Texts in the repository are ASCII, so `\w` and `[A-Z]`-with-IGNORECASE are
embedded as their ASCII meaning.
-/

namespace ContentParser

/-- ASCII lower-casing, the case folding used by `re.IGNORECASE` on the
ASCII texts this parser receives. -/
def lc (c : Char) : Char :=
  if 'A' ≤ c ∧ c ≤ 'Z' then Char.ofNat (c.toNat + 32) else c

/-- Python `\s` (ASCII part): space, tab, newline, carriage return,
vertical tab, form feed. -/
def isPySpace (c : Char) : Bool :=
  c == ' ' || c == '\t' || c == '\n' || c == '\r' || c == '\x0b' || c == '\x0c'

/-- Python `\d` (ASCII part). -/
def isDigitC (c : Char) : Bool :=
  '0' ≤ c && c ≤ '9'

/-- The character class `[:\s]` used as field separator throughout the source. -/
def isSepCS (c : Char) : Bool :=
  c == ':' || isPySpace c

/-- The character class `[:\n]` used as section separator
(executive summary / pillars / metrics / quick wins). -/
def isColonNl (c : Char) : Bool :=
  c == ':' || c == '\n'

/-- Python `\w` (ASCII part): letters, digits, underscore. -/
def isWordC (c : Char) : Bool :=
  ('a' ≤ c && c ≤ 'z') || ('A' ≤ c && c ≤ 'Z') || isDigitC c || c == '_'

/-- ASCII letter, the meaning of `[A-Z]` under `re.IGNORECASE`. -/
def isAlphaC (c : Char) : Bool :=
  ('a' ≤ c && c ≤ 'z') || ('A' ≤ c && c ≤ 'Z')

/-- The character list of a string. -/
def chars (s : String) : List Char :=
  s.data

/-- Case-insensitive literal match at the start of `cs`; on success returns
the remainder after the literal.  Embeds matching a plain literal under
`re.IGNORECASE`. -/
def stripCI : List Char → List Char → Option (List Char)
  | [], cs => some cs
  | _ :: _, [] => none
  | p :: ps, c :: cs => if lc p = lc c then stripCI ps cs else none

/-- Case-insensitive literal prefix test. -/
def startsCI (pat : List Char) (cs : List Char) : Bool :=
  (stripCI pat cs).isSome

/-- Case-insensitive literal as a label matcher. -/
def litCI (s : String) (cs : List Char) : Option (List Char) :=
  stripCI s.data cs

/-- Python `str.strip(set)`: drop characters of `set` from both ends. -/
def pyStrip (set : List Char) (s : List Char) : List Char :=
  ((s.dropWhile (fun c => set.contains c)).reverse.dropWhile
    (fun c => set.contains c)).reverse

/-- Python `str.strip()` with no argument: strip whitespace from both ends. -/
def pyStripWs (s : List Char) : List Char :=
  ((s.dropWhile isPySpace).reverse.dropWhile isPySpace).reverse

/-- Python `str.split(sep)` for a one-character separator: split at every
occurrence, keeping empty parts. -/
def pySplit (sep : Char) : List Char → List (List Char)
  | [] => [[]]
  | c :: t =>
    if c = sep then [] :: pySplit sep t
    else
      match pySplit sep t with
      | [] => [[c]]
      | h :: r => (c :: h) :: r

/-- `$` of a non-MULTILINE Python pattern, expressed on the remaining
suffix: it matches at the very end of the string and just before a final
trailing newline. -/
def dollarAt (cs : List Char) : Bool :=
  cs = [] ∨ cs = ['\n']

/-- Lazy `(.*?)(?=stop)` (with DOTALL): advance until the first suffix at
which `stop` holds, returning the consumed prefix and that suffix.  Every
`stop` below holds on `[]`, so the `([], [])` base case is unreachable;
it makes the function total. -/
def scanToStop (stop : List Char → Bool) : List Char → List Char × List Char
  | [] => ([], [])
  | c :: t =>
    if stop (c :: t) then ([], c :: t)
    else (c :: (scanToStop stop t).1, (scanToStop stop t).2)

/-- Evaluation of a digit string, `int(s)` when it succeeds. -/
def natOfDigits (s : List Char) : Nat :=
  s.foldl (fun n c => n * 10 + (c.toNat - 48)) 0

/-- Python `int(s)` restricted to the shapes the regexes can capture:
`int` succeeds exactly on a non-empty run of ASCII digits (the captures
all come from `(\d+)` groups, possibly fed through `strip`, so signs and
surrounding whitespace never occur). -/
def intE (s : List Char) : Except String Nat :=
  if s ≠ [] ∧ s.all isDigitC then Except.ok (natOfDigits s)
  else Except.error ("invalid literal for int")

/-- `(content_id - 1) // 5 + 1` with Python's floor division, the week
formula at `content_parser.py:121` and `content_parser.py:147`. -/
def weekFormula (contentId : Nat) : Int :=
  Int.fdiv ((contentId : Int) - 1) 5 + 1

/-- A Python dict value that is either an `int` or a `str` — needed because
`_parse_content_details` initialises `piece["week"]` with an `int` but the
generic field loop overwrites it with the captured *string*. -/
inductive PyVal where
  | intV (n : Int)
  | strV (s : String)
deriving DecidableEq, Repr

/-- `[:\s]+([^\n]+)`: greedy separator run, then a greedy line capture,
with the one reachable backtrack: if the separator run extends to the end
of the input, the engine gives back trailing separator characters until the
capture can start at a non-newline character (at least one separator
character must remain consumed).  Returns the capture and the remainder
after it. -/
def capLine (r : List Char) : Option (List Char × List Char) :=
  let w := r.takeWhile isSepCS
  if w = [] then none
  else
    match r.drop w.length with
    | a :: t =>
      let v := (a :: t).takeWhile (fun c => ¬ (c = '\n'))
      some (v, (a :: t).drop v.length)
    | [] =>
      match w.reverse.findIdx? (fun c => ¬ (c = '\n')) with
      | some j =>
        let k := w.length - 1 - j
        if 1 ≤ k then
          some ((w.drop k).takeWhile (fun c => ¬ (c = '\n')), [])
        else none
      | none => none

/-- `[:\s]+(\d+)`: greedy separator run, then a digit run (no backtracking
is reachable since digits are not separator characters). -/
def capDigits (r : List Char) : Option (List Char × List Char) :=
  let w := r.takeWhile isSepCS
  if w = [] then none
  else
    let a := r.drop w.length
    let ds := a.takeWhile isDigitC
    if ds = [] then none else some (ds, a.drop ds.length)

/-- The lookahead `[\w\s]*:` of the multi-line continuation heuristic:
skip word/space characters, then require a colon.  (`:` itself is in
neither class, so the greedy run is deterministic.) -/
def wsColonAhead (cs : List Char) : Bool :=
  (cs.dropWhile (fun c => isWordC c || isPySpace c)).head? = some ':'

/-- Continuations `(?:\n(?![\w\s]*:)[^\n]+)*`: repeatedly absorb a newline
plus a non-empty line that does not look like the start of a new
`label:` field.  Fuel-driven; callers pass the input length. -/
def contLoop (fuel : Nat) (cs : List Char) : List Char :=
  match fuel with
  | 0 => []
  | fuel + 1 =>
    match cs with
    | '\n' :: rest =>
      if wsColonAhead rest then []
      else
        match rest with
        | [] => []
        | r :: _ =>
          if r = '\n' then []
          else
            let line := rest.takeWhile (fun c => ¬ (c = '\n'))
            '\n' :: (line ++ contLoop fuel (rest.drop line.length))
    | _ => []

/-- `[:\s]+([^\n]+(?:\n(?![\w\s]*:)[^\n]+)*)`: the multi-line capture used
for `description` and `execution_notes`. -/
def capMulti (r : List Char) : Option (List Char × List Char) :=
  match capLine r with
  | none => none
  | some (v, rest) => some (v ++ contLoop rest.length rest, [])

/-- Try the capture on a priority-ordered list of label-match remainders;
this realises the engine's backtracking over label alternatives and
optional label parts at one start position. -/
def tryCaps (cap : List Char → Option (List Char × List Char)) :
    List (List Char) → Option (List Char × List Char)
  | [] => none
  | r :: rs =>
    match cap r with
    | some vr => some vr
    | none => tryCaps cap rs

/-- `re.search` of `label ⬝ capture`: try every start position from the
left; at each position the label's candidate remainders (alternatives /
optional parts, in engine order) are tried against the capture; when all
fail the engine moves on to the next start position. -/
def scanField (lbl : List Char → List (List Char))
    (cap : List Char → Option (List Char × List Char)) :
    List Char → Option (List Char)
  | [] => none
  | c :: t =>
    match tryCaps cap (lbl (c :: t)) with
    | some (v, _) => some v
    | none => scanField lbl cap t

/-- A plain literal label: zero or one candidate. -/
def lbl1 (s : String) (cs : List Char) : List (List Char) :=
  (litCI s cs).toList

/-- `(?:Date|Suggested Date)` — alternatives tried in order at each
position. -/
def lblDate (cs : List Char) : List (List Char) :=
  (litCI ("Date") cs).toList ++ (litCI ("Suggested Date") cs).toList

/-- `(?:Call to Action|CTA)`. -/
def lblCTA (cs : List Char) : List (List Char) :=
  (litCI ("Call to Action") cs).toList ++ (litCI ("CTA") cs).toList

/-- Greedy optional literal suffix `(?:\s+Word)?` after a matched label:
first the candidate that consumes whitespace plus the word, then — if the
rest of the pattern fails there — the candidate that leaves the position
unchanged. -/
def optWordSuffix (word : String) (r : List Char) : List (List Char) :=
  let w := r.takeWhile isPySpace
  if w = [] then [r]
  else
    match stripCI word.data (r.drop w.length) with
    | some r2 => [r2, r]
    | none => [r]

/-- `Effort(?:\s+Level)?`. -/
def lblEffort (cs : List Char) : List (List Char) :=
  match litCI ("Effort") cs with
  | some r => optWordSuffix ("Level") r
  | none => []

/-- `Engagement(?:\s+Potential)?`. -/
def lblEngagement (cs : List Char) : List (List Char) :=
  match litCI ("Engagement") cs with
  | some r => optWordSuffix ("Potential") r
  | none => []

/-- The strip set `' -•\n"\''` applied to every captured piece field. -/
def fieldStrip (v : List Char) : List Char :=
  pyStrip [' ', '-', '•', '\n', '"', '\''] v

/-- `if match: value = group(1).strip(...); if value: piece[f] = value`
— keep the default unless a non-empty stripped capture was found. -/
def fieldVal (dflt : String) (r : Option (List Char)) : String :=
  match r with
  | some v =>
    let v' := fieldStrip v
    if v' = [] then dflt else String.mk v'
  | none => dflt

/-- One calendar entry, the dict built by `_parse_content_details` /
the tier-2 fallback of `_extract_content_pieces`. -/
structure Piece where
  content_id : Nat
  title : String
  week : PyVal
  suggested_date : String
  channel : String
  format : String
  pillar : String
  key_message : String
  description : String
  call_to_action : String
  effort_level : String
  effort_explanation : String
  engagement_potential : String
  engagement_reasoning : String
  seo_keyword : String
  execution_notes : String
deriving DecidableEq, Repr

/-- `_parse_content_details` (content_parser.py:142-192): defaults filled
first, then each field of the fixed pattern table is searched
independently and overwritten only by a non-empty stripped capture.
The `week` entry starts as the *integer* `(content_id - 1) // 5 + 1` and
is replaced by the captured digit *string* when an explicit `Week:` field
matches. -/
def parseContentDetails (cid : Nat) (title : String) (details : List Char) :
    Piece :=
  { content_id := cid
    title := title
    week :=
      match scanField (lbl1 ("Week")) capDigits details with
      | some v =>
        let v' := fieldStrip v
        if v' = [] then PyVal.intV (weekFormula cid) else PyVal.strV (String.mk v')
      | none => PyVal.intV (weekFormula cid)
    suggested_date := fieldVal ("") (scanField lblDate capLine details)
    channel := fieldVal ("") (scanField (lbl1 ("Channel")) capLine details)
    format := fieldVal ("") (scanField (lbl1 ("Format")) capLine details)
    pillar := fieldVal ("") (scanField (lbl1 ("Pillar")) capLine details)
    key_message := fieldVal ("") (scanField (lbl1 ("Key Message")) capLine details)
    description := fieldVal ("") (scanField (lbl1 ("Description")) capMulti details)
    call_to_action := fieldVal ("") (scanField lblCTA capLine details)
    effort_level := fieldVal ("Medium") (scanField lblEffort capLine details)
    effort_explanation :=
      fieldVal ("") (scanField (lbl1 ("Effort Explanation")) capLine details)
    engagement_potential := fieldVal ("Medium") (scanField lblEngagement capLine details)
    engagement_reasoning :=
      fieldVal ("") (scanField (lbl1 ("Engagement Reasoning")) capLine details)
    seo_keyword := fieldVal ("") (scanField (lbl1 ("SEO Keyword")) capLine details)
    execution_notes :=
      fieldVal ("") (scanField (lbl1 ("Execution Notes")) capMulti details) }

/-! ### Tier-1 content blocks

Pattern 1 of `_extract_content_pieces` (content_parser.py:87):
`(?:Content\s*(?:Piece)?\s*#?\s*(\d+))[:\s]*([^\n]+?)(?:\n|$)(.*?)(?=(?:Content\s*(?:Piece)?\s*#?\s*\d+)|$)`
with `re.DOTALL | re.IGNORECASE`, driven by `re.finditer`. -/

/-- A final `(\d+)`: the greedy digit run (at least one digit) and the
remainder after it. -/
def digitCapture (r : List Char) : Option (List Char × List Char) :=
  let ds := r.takeWhile isDigitC
  if ds = [] then none else some (ds, r.drop ds.length)

/-- `#?\s*` after a maximal whitespace run: an optional hash followed by
whitespace (with no hash the whitespace was already absorbed by the
preceding maximal run). -/
def hashSkip (r : List Char) : List Char :=
  match r with
  | '#' :: t => t.dropWhile isPySpace
  | _ => r

/-- `(?:Piece)?\s*` after a maximal whitespace run. -/
def pieceSkip (r : List Char) : List Char :=
  match litCI ("Piece") r with
  | some x => x.dropWhile isPySpace
  | none => r

/-- `Content\s*(?:Piece)?\s*#?\s*(\d+)` at the start of `cs`: returns the
captured digit run and the remainder.  The optional parts are
deterministic because giving them back always leaves a character of the
wrong class at the next position. -/
def contentHeaderAt (cs : List Char) : Option (List Char × List Char) :=
  match litCI ("Content") cs with
  | none => none
  | some r1 => digitCapture (hashSkip (pieceSkip (r1.dropWhile isPySpace)))

/-- The lookahead `(?=(?:Content\s*(?:Piece)?\s*#?\s*\d+)|$)` ending a
tier-1 block. -/
def stop1 (cs : List Char) : Bool :=
  (contentHeaderAt cs).isSome || dollarAt cs

/-- The tail `[:\s]*([^\n]+?)(?:\n|$)(.*?)(?=header|$)` after the digit
run `ds`, on remainder `t`.  Reachable backtracking, in engine order:
the greedy `[:\s]*` run gives back trailing characters when the title
would otherwise start at the end of the input (the given-back character
must not be a newline); if even that fails — the rest of the input is
newlines only or empty — the greedy `(\d+)` gives back its last digit,
which then necessarily starts the title. -/
def tier1Tail (ds : List Char) (t : List Char) :
    Option (List Char × List Char × List Char × List Char) :=
  let w := t.takeWhile isSepCS
  match t.drop w.length with
  | a :: t2 =>
    let title := (a :: t2).takeWhile (fun c => ¬ (c = '\n'))
    let body :=
      match (a :: t2).drop title.length with
      | '\n' :: b => b
      | other => other
    let db := scanToStop stop1 body
    some (ds, title, db.1, db.2)
  | [] =>
    match w.reverse.findIdx? (fun c => ¬ (c = '\n')) with
    | some j =>
      let k := w.length - 1 - j
      let title := (w.drop k).takeWhile (fun c => ¬ (c = '\n'))
      let body :=
        match (w.drop k).drop title.length with
        | '\n' :: b => b
        | other => other
      let db := scanToStop stop1 body
      some (ds, title, db.1, db.2)
    | none =>
      if 2 ≤ ds.length then
        let lead := ds.drop (ds.length - 1) ++ t
        let title := lead.takeWhile (fun c => ¬ (c = '\n'))
        let body :=
          match lead.drop title.length with
          | '\n' :: b => b
          | other => other
        let db := scanToStop stop1 body
        some (ds.take (ds.length - 1), title, db.1, db.2)
      else none

/-- One attempt of pattern 1 at the current position: digit capture, raw
title capture, details span, and the suffix where `finditer` resumes
(the zero-width lookahead consumes nothing). -/
def tryTier1At (cs : List Char) :
    Option ((List Char × List Char × List Char) × List Char) :=
  match contentHeaderAt cs with
  | none => none
  | some (ds, t) =>
    match tier1Tail ds t with
    | none => none
    | some (used, title, det, rest) => some ((used, title, det), rest)

/-- `re.finditer` of pattern 1: leftmost non-overlapping matches.
Fuel-driven (every step consumes at least one character, so
`length + 1` fuel always suffices; see the consumption lemmas). -/
def tier1LoopF : Nat → List Char → List (List Char × List Char × List Char)
  | 0, _ => []
  | fuel + 1, cs =>
    match tryTier1At cs with
    | some (m, rest) => m :: tier1LoopF fuel rest
    | none =>
      match cs with
      | [] => []
      | _ :: t => tier1LoopF fuel t

def tier1Loop (cs : List Char) : List (List Char × List Char × List Char) :=
  tier1LoopF (cs.length + 1) cs

/-! ### Tier-2 fallback numbered list

Pattern 2 of `_extract_content_pieces` (content_parser.py:108):
`(?:^|\n)\s*(\d+)[\.\)]\s*([^\n]+)` with `re.MULTILINE`. -/

/-- `\s*([^\n]+)`: greedy whitespace run then a line capture, giving back
trailing whitespace when the run reaches the end of the input. -/
def capWsLine (r : List Char) : Option (List Char × List Char) :=
  let w := r.takeWhile isPySpace
  match r.drop w.length with
  | a :: t =>
    let v := (a :: t).takeWhile (fun c => ¬ (c = '\n'))
    some (v, (a :: t).drop v.length)
  | [] =>
    match w.reverse.findIdx? (fun c => ¬ (c = '\n')) with
    | some j =>
      some ((w.drop (w.length - 1 - j)).takeWhile (fun c => ¬ (c = '\n')), [])
    | none => none

/-- One attempt of pattern 2.  `zeroWidth` is true only for the start of
the text (the `^` alternative); elsewhere a match must consume a leading
newline (an `^` right after a newline gives the identical match one
position later, so the engine's leftmost rule always picks the newline
alternative first and the two agree on captures and resumption point). -/
def tier2Core (r0 : List Char) : Option ((List Char × List Char) × List Char) :=
  match digitCapture (r0.dropWhile isPySpace) with
  | none => none
  | some (ds, after) =>
    match after with
    | '.' :: r2 =>
      match capWsLine r2 with
      | some (v, rest) => some ((ds, v), rest)
      | none => none
    | ')' :: r2 =>
      match capWsLine r2 with
      | some (v, rest) => some ((ds, v), rest)
      | none => none
    | _ => none

def tryTier2At (zeroWidth : Bool) (cs : List Char) :
    Option ((List Char × List Char) × List Char) :=
  if zeroWidth then tier2Core cs
  else
    match cs with
    | '\n' :: t => tier2Core t
    | _ => none

/-- `re.finditer` of pattern 2. -/
def tier2LoopF : Nat → Bool → List Char → List (List Char × List Char)
  | 0, _, _ => []
  | fuel + 1, first, cs =>
    match tryTier2At first cs with
    | some (m, rest) => m :: tier2LoopF fuel false rest
    | none =>
      match cs with
      | [] => []
      | _ :: t => tier2LoopF fuel false t

def tier2Loop (first : Bool) (cs : List Char) : List (List Char × List Char) :=
  tier2LoopF (cs.length + 1) first cs

/-- The strip set `' :-*"'` applied to a tier-1 title capture. -/
def pieceTitleStrip (v : List Char) : List Char :=
  pyStrip [' ', ':', '-', '*', '"'] v

/-- The body of the tier-1 `for` loop under its `try`: `int` may raise and
is then caught by the surrounding `except` (see `catchSkip`). -/
def tier1PieceE (m : List Char × List Char × List Char) : Except String Piece :=
  (intE m.1).map
    (fun cid => parseContentDetails cid (String.mk (pieceTitleStrip m.2.1)) m.2.2)

/-- The minimal piece built by the tier-2 fallback
(content_parser.py:118-135). -/
def mkMinimalPiece (cid : Nat) (title : String) : Piece :=
  { content_id := cid
    title := title
    week := PyVal.intV (weekFormula cid)
    suggested_date := ""
    channel := ""
    format := ""
    pillar := ""
    key_message := ""
    description := ""
    call_to_action := ""
    effort_level := "Medium"
    effort_explanation := ""
    engagement_potential := "Medium"
    engagement_reasoning := ""
    seo_keyword := ""
    execution_notes := "" }

/-- The body of the tier-2 `for` loop under its `try`. -/
def tier2PieceE (m : List Char × List Char) : Except String Piece :=
  (intE m.1).map (fun cid => mkMinimalPiece cid (String.mk (pyStripWs m.2)))

/-- `except (ValueError, AttributeError): continue` — a failing loop body
is skipped, a successful one appends its piece (the built dict is a
non-empty dict, hence always truthy for the `if piece:` test). -/
def catchSkip (acc : List Piece) (r : Except String Piece) : List Piece :=
  match r with
  | Except.ok p => acc ++ [p]
  | Except.error _ => acc

/-- `_extract_content_pieces` (content_parser.py:81-140): tier 1 wins
globally whenever it produced at least one match; only a completely
headerless text falls back to the numbered-list scan. -/
def extract_content_pieces (cs : List Char) : List Piece :=
  let ms := tier1Loop cs
  if ms.isEmpty then
    (tier2Loop true cs).foldl (fun acc m => catchSkip acc (tier2PieceE m)) []
  else
    ms.foldl (fun acc m => catchSkip acc (tier1PieceE m)) []

/-! ### Sections of the calendar document -/

/-- `sep+(.*?)(?=stop)`: greedy separator run (at least one character),
then the lazy capture up to the first stop position.  The capture always
completes because `$` holds at the end of the input, so no backtracking
into the separator run is reachable. -/
def capSection (sep : Char → Bool) (stop : List Char → Bool) (r : List Char) :
    Option (List Char × List Char) :=
  let w := r.takeWhile sep
  if w = [] then none else some (scanToStop stop (r.drop w.length))

/-- Lookahead alternative `\n#{1,3}`. -/
def stopHash (cs : List Char) : Bool :=
  match cs with
  | '\n' :: '#' :: _ => true
  | _ => false

/-- Lookahead alternative `\n\*\*`. -/
def stopStarStar (cs : List Char) : Bool :=
  match cs with
  | '\n' :: '*' :: '*' :: _ => true
  | _ => false

/-- Lookahead alternative `\n\*\*[A-Z]` (`[A-Z]` matches both cases under
`re.IGNORECASE`). -/
def stopStarStarAlpha (cs : List Char) : Bool :=
  match cs with
  | '\n' :: '*' :: '*' :: c :: _ => isAlphaC c
  | _ => false

/-- Lookahead alternative `\nLit` for a case-insensitive literal. -/
def stopNlLit (lit : String) (cs : List Char) : Bool :=
  match cs with
  | '\n' :: t => startsCI lit.data t
  | _ => false

/-- After `\n`, `#{1,3}[^#]` with the first `#` already consumed: some
run of at most three `#` in total followed by a character that is not
`#` (which must exist). -/
def hashTail : List Char → Bool
  | [] => false
  | c :: t =>
    if ¬ (c = '#') then true
    else
      match t with
      | [] => false
      | c2 :: t2 =>
        if ¬ (c2 = '#') then true
        else
          match t2 with
          | [] => false
          | c3 :: _ => ¬ (c3 = '#')

/-- Lookahead `(?=\n#{1,3}|\n\*\*|$)` for the summary / metrics /
quick-wins sections. -/
def stopExec (cs : List Char) : Bool :=
  stopHash cs || stopStarStar cs || dollarAt cs

/-- Lookahead `(?=\n#{1,3}[^#]|\n\*\*[A-Z]|$)` for the pillar section. -/
def stopPillarSec (cs : List Char) : Bool :=
  (match cs with
   | '\n' :: '#' :: t => hashTail ('#' :: t)
   | _ => false) || stopStarStarAlpha cs || dollarAt cs

/-- One attempt of `(?:Pillar\s+(\d+)[:\s]+)([^\n]+?)(?:\n|$)`
(content_parser.py:64); returns the digit and description captures plus
the resumption suffix. -/
def tryPillarAt (cs : List Char) :
    Option ((List Char × List Char) × List Char) :=
  match litCI ("Pillar") cs with
  | none => none
  | some r1 =>
    let w1 := r1.takeWhile isPySpace
    if w1 = [] then none
    else
      let r2 := r1.drop w1.length
      let ds := r2.takeWhile isDigitC
      if ds = [] then none
      else
        match capLine (r2.drop ds.length) with
        | none => none
        | some (v, rest) =>
          let rest2 :=
            match rest with
            | '\n' :: b => b
            | other => other
          some ((ds, v), rest2)

/-- `re.finditer` over the pillar section. -/
def pillarLoopF : Nat → List Char → List (List Char × List Char)
  | 0, _ => []
  | fuel + 1, cs =>
    match tryPillarAt cs with
    | some (m, rest) => m :: pillarLoopF fuel rest
    | none =>
      match cs with
      | [] => []
      | _ :: t => pillarLoopF fuel t

def pillarLoop (cs : List Char) : List (List Char × List Char) :=
  pillarLoopF (cs.length + 1) cs

/-- Python dict assignment on a string key: update in place, append if
new. -/
def upsert (k v : String) : List (String × String) → List (String × String)
  | [] => [(k, v)]
  | (k', v') :: t => if k' = k then (k, v) :: t else (k', v') :: upsert k v t

/-- The three generic fallback pillars (content_parser.py:72-77). -/
def generic3 : List (String × String) :=
  [("Pillar 1", "Brand Awareness & Thought Leadership"),
   ("Pillar 2", "Product Education & Features"),
   ("Pillar 3", "Community Engagement & Stories")]

/-- The pillar dictionary accumulated from the pillar section, before the
fallback (content_parser.py:54-69). -/
def scanPillarPairs (cs : List Char) : List (String × String) :=
  match scanField (lbl1 ("Content Pillars")) (capSection isColonNl stopPillarSec) cs with
  | none => []
  | some sec =>
    (pillarLoop sec).foldl
      (fun acc m =>
        upsert (String.mk (chars ("Pillar ") ++ m.1))
          (String.mk (pyStrip [' ', '-', ':'] m.2)) acc)
      []

/-- `_extract_pillars` (content_parser.py:52-79). -/
def extract_pillars (cs : List Char) : List (String × String) :=
  let p := scanPillarPairs cs
  if p = [] then generic3 else p

/-- List sections (`success_metrics`, `quick_wins`):
`[m.strip('- •\n') for m in text.split('\n') if m.strip()]`. -/
def listItems (cap : List Char) : List String :=
  (pySplit '\n' cap).filterMap
    (fun m =>
      if pyStripWs m = [] then none
      else some (String.mk (pyStrip [' ', '-', '•', '\n'] m)))

/-- The aggregate returned by `parse_calendar_output`. -/
structure Calendar where
  executive_summary : String
  content_pieces : List Piece
  pillars : List (String × String)
  weekly_breakdown : List (String × String)
  success_metrics : List String
  quick_wins : List String
deriving DecidableEq, Repr

/-- `parse_calendar_output` (content_parser.py:8-50). -/
def parse_calendar_output (s : String) : Calendar :=
  let cs := chars s
  { executive_summary :=
      match scanField (lbl1 ("Executive Summary")) (capSection isColonNl stopExec) cs with
      | some cap => String.mk (pyStripWs cap)
      | none => ""
    content_pieces := extract_content_pieces cs
    pillars := extract_pillars cs
    weekly_breakdown := []
    success_metrics :=
      match scanField (lbl1 ("Success Metrics")) (capSection isColonNl stopExec) cs with
      | some cap => listItems cap
      | none => []
    quick_wins :=
      match scanField (lbl1 ("Quick Wins")) (capSection isColonNl stopExec) cs with
      | some cap => listItems cap
      | none => [] }

/-- `parse_calendar_output` with the exception behaviour explicit: the
only statements of the function that can raise are the loop bodies of
`_extract_content_pieces`, and those sit under `try/except` modelled by
`catchSkip` inside `extract_content_pieces`; the assembler itself
therefore always returns. -/
def parse_calendar_outputE (s : String) : Except String Calendar :=
  Except.ok (parse_calendar_output s)

/-! ### Strategies -/

/-- `Strategy\s+#?\s*(\d+)` at the start of `cs`. -/
def strategyHeaderAt (cs : List Char) : Option (List Char × List Char) :=
  match litCI ("Strategy") cs with
  | none => none
  | some r1 =>
    if r1.takeWhile isPySpace = [] then none
    else digitCapture (hashSkip (r1.drop (r1.takeWhile isPySpace).length))

/-- The header tail `[:\s]*[^\n]*\n` after the digit run: greedily the
separator run, then the rest of the line, then a required newline.  When
no newline occurs at or after the end of the separator run the engine
backs into the run and ends the header at the last newline inside it;
with no newline anywhere the header fails. -/
def strategyHeaderTail (r : List Char) : Option (List Char) :=
  let s := r.takeWhile isSepCS
  let a := r.drop s.length
  let n := a.takeWhile (fun c => ¬ (c = '\n'))
  match a.drop n.length with
  | '\n' :: b => some b
  | _ =>
    match s.reverse.findIdx? (fun c => c = '\n') with
    | some j => some (r.drop (s.length - j))
    | none => none

/-- Lookahead `(?=(?:Strategy\s+#?\s*\d+)|(?:RECOMMENDATION|## RECOMMENDATION)|$)`
(content_parser.py:205). -/
def stopStrat (cs : List Char) : Bool :=
  (strategyHeaderAt cs).isSome || startsCI (chars ("RECOMMENDATION")) cs
    || startsCI (chars ("## RECOMMENDATION")) cs || dollarAt cs

/-- One attempt of the strategy block pattern: number capture, block body,
resumption suffix. -/
def tryStratAt (cs : List Char) :
    Option ((List Char × List Char) × List Char) :=
  match strategyHeaderAt cs with
  | none => none
  | some (ds, r) =>
    match strategyHeaderTail r with
    | none => none
    | some b =>
      let db := scanToStop stopStrat b
      some ((ds, db.1), db.2)

/-- `re.finditer` over the strategies document. -/
def stratLoopF : Nat → List Char → List (List Char × List Char)
  | 0, _ => []
  | fuel + 1, cs =>
    match tryStratAt cs with
    | some (m, rest) => m :: stratLoopF fuel rest
    | none =>
      match cs with
      | [] => []
      | _ :: t => stratLoopF fuel t

def stratLoop (cs : List Char) : List (List Char × List Char) :=
  stratLoopF (cs.length + 1) cs

/-- `(?:Name|Strategy Name)`. -/
def lblName (cs : List Char) : List (List Char) :=
  (litCI ("Name") cs).toList ++ (litCI ("Strategy Name") cs).toList

/-- `(?:Core Approach|Approach)`. -/
def lblApproach (cs : List Char) : List (List Char) :=
  (litCI ("Core Approach") cs).toList ++ (litCI ("Approach") cs).toList

/-- `(?:Top 5 Content Ideas|Content Ideas)`. -/
def lblIdeas (cs : List Char) : List (List Char) :=
  (litCI ("Top 5 Content Ideas") cs).toList ++ (litCI ("Content Ideas") cs).toList

/-- `if m: field = m.group(1).strip(set)` — set on match (even if the strip
empties the capture), default otherwise. -/
def optFieldSet (dflt : String) (set : List Char) (r : Option (List Char)) : String :=
  match r with
  | some v => String.mk (pyStrip set v)
  | none => dflt

/-- Lookahead `(?=\n\*\*[A-Z]|\nPosting|$)` of the strategy pillar
sub-section. -/
def stopPillarsStrat (cs : List Char) : Bool :=
  stopStarStarAlpha cs || stopNlLit ("Posting") cs || dollarAt cs

/-- Lookahead `(?=\n\*\*[A-Z]|\nEstimated|$)` of the ideas sub-section. -/
def stopIdeas (cs : List Char) : Bool :=
  stopStarStarAlpha cs || stopNlLit ("Estimated") cs || dollarAt cs

/-- Lookahead `(?=\nCons|\n\*\*[A-Z]|$)` of the pros sub-section. -/
def stopPros (cs : List Char) : Bool :=
  stopNlLit ("Cons") cs || stopStarStarAlpha cs || dollarAt cs

/-- Lookahead `(?=\n\*\*[A-Z]|$)` of the cons sub-section. -/
def stopCons (cs : List Char) : Bool :=
  stopStarStarAlpha cs || dollarAt cs

/-- `\s*([^:\n]+):` — whitespace, a pillar name (at least one character
that is neither colon nor newline), then a colon.  The terminating
character of the run after the whitespace must be the colon; when the run
is empty the engine gives back one trailing whitespace character (not a
newline) to serve as the name. -/
def nameColon (r : List Char) : Option (List Char × List Char) :=
  let w := r.takeWhile isPySpace
  let a := r.drop w.length
  let nm := a.takeWhile (fun c => ¬ (c = ':' ∨ c = '\n'))
  match a.drop nm.length with
  | ':' :: rest =>
    if nm = [] then
      match w.getLast? with
      | some c => if c = '\n' then none else some ([c], rest)
      | none => none
    else some (nm, rest)
  | _ => none

/-- One attempt of `[-•]\s*([^:\n]+):\s*([^\n]+)` (content_parser.py:246). -/
def tryStratPillarAt (cs : List Char) :
    Option ((List Char × List Char) × List Char) :=
  match cs with
  | [] => none
  | b :: r =>
    if b = '-' ∨ b = '•' then
      match nameColon r with
      | some (nm, r2) =>
        match capWsLine r2 with
        | some (d, rest) => some ((nm, d), rest)
        | none => none
      | none => none
    else none

/-- `re.findall` of the pillar bullet pattern. -/
def stratPillarLoopF : Nat → List Char → List (List Char × List Char)
  | 0, _ => []
  | fuel + 1, cs =>
    match tryStratPillarAt cs with
    | some (m, rest) => m :: stratPillarLoopF fuel rest
    | none =>
      match cs with
      | [] => []
      | _ :: t => stratPillarLoopF fuel t

def stratPillarLoop (cs : List Char) : List (List Char × List Char) :=
  stratPillarLoopF (cs.length + 1) cs

/-- One attempt of `(?:\d+\.|[-•])\s*([^\n]+)` (content_parser.py:258);
the numbered alternative is tried first. -/
def tryIdeaAt (cs : List Char) : Option (List Char × List Char) :=
  let deci : Option (List Char) :=
    let ds := cs.takeWhile isDigitC
    if ds = [] then none
    else
      match cs.drop ds.length with
      | '.' :: r => some r
      | _ => none
  let start? :=
    match deci with
    | some r => some r
    | none =>
      match cs with
      | '-' :: r => some r
      | '•' :: r => some r
      | _ => none
  match start? with
  | none => none
  | some r => capWsLine r

/-- `re.findall` of the idea pattern. -/
def ideaLoopF : Nat → List Char → List (List Char)
  | 0, _ => []
  | fuel + 1, cs =>
    match tryIdeaAt cs with
    | some (m, rest) => m :: ideaLoopF fuel rest
    | none =>
      match cs with
      | [] => []
      | _ :: t => ideaLoopF fuel t

def ideaLoop (cs : List Char) : List (List Char) :=
  ideaLoopF (cs.length + 1) cs

/-- Pros/cons line lists:
`[p.strip(' -•\n') for p in text.split('\n') if p.strip() and not p.strip().startswith('*')]`. -/
def bulletItems (cap : List Char) : List String :=
  (pySplit '\n' cap).filterMap
    (fun p =>
      let pw := pyStripWs p
      if pw = [] then none
      else if pw.head? = some '*' then none
      else some (String.mk (pyStrip [' ', '-', '•', '\n'] p)))

/-- The pros list extracted from one strategy body
(content_parser.py:262-266). -/
def prosOf (body : List Char) : List String :=
  match scanField (lbl1 ("Pros")) (capSection isSepCS stopPros) body with
  | some cap => bulletItems cap
  | none => []

/-- The cons list extracted from one strategy body
(content_parser.py:269-273). -/
def consOf (body : List Char) : List String :=
  match scanField (lbl1 ("Cons")) (capSection isSepCS stopCons) body with
  | some cap => bulletItems cap
  | none => []

/-- One strategy record (the dict of content_parser.py:213-224). -/
structure Strategy where
  strategy_number : Nat
  name : String
  tagline : String
  core_approach : String
  content_pillars : List (String × String)
  posting_frequency : List (String × String)
  content_mix : List (String × String)
  top_5_ideas : List String
  pros : List String
  cons : List String
deriving DecidableEq, Repr

/-- The per-block field extraction of `parse_strategies_output`
(content_parser.py:213-275).  `posting_frequency` and `content_mix` are
initialised to the empty dict and no later statement touches them. -/
def buildStrategy (num : Nat) (body : List Char) : Strategy :=
  { strategy_number := num
    name := optFieldSet ("") [' ', '"', '*'] (scanField lblName capLine body)
    tagline := optFieldSet ("") [' ', '"', '*'] (scanField (lbl1 ("Tagline")) capLine body)
    core_approach :=
      match scanField lblApproach capMulti body with
      | some v => String.mk (pyStripWs v)
      | none => ""
    content_pillars :=
      match scanField (lbl1 ("Content Pillars")) (capSection isSepCS stopPillarsStrat) body with
      | some sec =>
        (stratPillarLoop sec).map
          (fun m => (String.mk (pyStripWs m.1), String.mk (pyStripWs m.2)))
      | none => []
    posting_frequency := []
    content_mix := []
    top_5_ideas :=
      match scanField lblIdeas (capSection isSepCS stopIdeas) body with
      | some sec =>
        (ideaLoop sec).filterMap
          (fun v =>
            if pyStripWs v = [] then none
            else some (String.mk (pyStrip [' ', '"'] v)))
      | none => []
    pros := prosOf body
    cons := consOf body }

/-- `parse_strategies_output` (content_parser.py:195-277).  The call
`int(match.group(1))` is *not* under a `try`, so a failure there would
propagate out of the whole function; `Except` records that.  (It cannot
in fact fail: the capture is a non-empty digit run — see the totality
theorem.) -/
def parse_strategies_outputE (s : String) : Except String (List Strategy) :=
  (stratLoop (chars s)).mapM
    (fun m => (intE m.1).map (fun n => buildStrategy n m.2))

/-! ### Concrete documents used in the theorems -/

/-- The end-to-end input of §8 of the spec. -/
def c3input : String :=
  "Content #1\nWeek 1 | Jan 5, 2025 | Title: Launch Post\nChannel: LinkedIn | Format: Video\nCTA: Sign up"

/-- The piece actually produced for `c3input`: the greedy `[:\s]*` of the
header pattern consumes the newline after `Content #1`, making the whole
second line the title, and the `Channel` capture runs to the end of its
line. -/
def c3piece : Piece :=
  { content_id := 1
    title := "Week 1 | Jan 5, 2025 | Title: Launch Post"
    week := PyVal.intV 1
    suggested_date := ""
    channel := "LinkedIn | Format: Video"
    format := "Video"
    pillar := ""
    key_message := ""
    description := ""
    call_to_action := "Sign up"
    effort_level := "Medium"
    effort_explanation := ""
    engagement_potential := "Medium"
    engagement_reasoning := ""
    seo_keyword := ""
    execution_notes := "" }

/-- A small strategies document with one block. -/
def stratDocW : String :=
  "Strategy 1: Plan\nPros:\n- a\nCons:\n- b\n"

/-- The body that the block pattern extracts from `stratDocW`. -/
def stratBodyW : String :=
  "Pros:\n- a\nCons:\n- b"


/-! ### Canonical five-strategy documents (C9)

The claim quantifies over strategies documents with five `Strategy N:`
headers whose blocks each contain a `Pros:` and a `Cons:` bullet list.
`c9doc` renders such a document canonically from the ten bullet lists;
`safeBullet` states the well-formedness a bullet line needs so that the
tolerant regexes cannot misfire on its text (no embedded newline, no
stray strip/marker characters at the edges, and no occurrence of a
case-insensitive keyword that one of the patterns would latch onto). -/

/-- Case-insensitive substring occurrence. -/
def occursCI (pat : List Char) : List Char → Bool
  | [] => startsCI pat []
  | c :: t => startsCI pat (c :: t) || occursCI pat t

/-- The strip set applied to pros/cons bullet lines. -/
def bulletStripSet : List Char :=
  [' ', '-', '•', '\n']

/-- Well-formedness of one bullet's text. -/
def safeBullet (b : String) : Bool :=
  ¬ (chars b = []) &&
  (chars b).all (fun c => ¬ (c = '\n')) &&
  ¬ bulletStripSet.contains ((chars b).headD ' ') &&
  ¬ bulletStripSet.contains ((chars b).reverse.headD ' ') &&
  ¬ occursCI (chars ("Strategy")) (chars b) &&
  ¬ occursCI (chars ("RECOMMENDATION")) (chars b) &&
  ¬ occursCI (chars ("## RECOMMENDATION")) (chars b) &&
  ¬ occursCI (chars ("Cons")) (chars b)

/-- Newline-led rendering of a bullet list: `\n- b` per bullet. -/
def ptN : List String → List Char
  | [] => []
  | b :: bs => '\n' :: '-' :: ' ' :: (chars b ++ ptN bs)

/-- The same list without its leading newline — the exact sub-section
text the pros/cons capture groups produce. -/
def captN : List String → List Char
  | [] => []
  | b :: bs => '-' :: ' ' :: (chars b ++ ptN bs)

/-- One strategy body: a `Pros:` bullet list then a `Cons:` bullet
list. -/
def bodyMid (ps cs : List String) : List Char :=
  chars ("Pros:") ++ ptN ps ++ '\n' :: (chars ("Cons:") ++ ptN cs)

/-- The body together with the newline that ends the block's last
line. -/
def bodyCore (ps cs : List String) : List Char :=
  bodyMid ps cs ++ ['\n']

/-- The canonical five-strategy document. -/
def c9doc (p1 c1 p2 c2 p3 c3 p4 c4 p5 c5 : List String) : List Char :=
  chars ("Strategy 1: Plan\n") ++ bodyCore p1 c1 ++
  chars ("Strategy 2: Plan\n") ++ bodyCore p2 c2 ++
  chars ("Strategy 3: Plan\n") ++ bodyCore p3 c3 ++
  chars ("Strategy 4: Plan\n") ++ bodyCore p4 c4 ++
  chars ("Strategy 5: Plan\n") ++ bodyCore p5 c5

/-- No-stop condition: the stop predicate fires at no position strictly
inside `A` when the text continues with `B`. -/
def noHit (f : List Char → Bool) (A B : List Char) : Prop :=
  ∀ n, n < A.length → f (A.drop n ++ B) = false

/-! ## Theorems -/

/-! ### Arithmetic of the week formula -/

theorem weekFormula_eq_natDiv (n : Nat) : weekFormula n = ((n + 4) / 5 : Nat) := by
  unfold weekFormula
  rw [Int.fdiv_eq_ediv _ (by norm_num)]
  omega

theorem weekFormula_eq_ceil (n : Nat) : weekFormula n = ⌈(n : ℚ) / 5⌉ := by
  rw [weekFormula_eq_natDiv]
  symm
  rw [Int.ceil_eq_iff]
  set k := (n + 4) / 5 with hk
  have h1 : 5 * k ≤ n + 4 := by omega
  have h2 : n ≤ 5 * k := by omega
  constructor
  · rw [lt_div_iff₀ (by norm_num : (0 : ℚ) < 5)]
    push_cast
    have h1q : 5 * (k : ℚ) ≤ (n : ℚ) + 4 := by exact_mod_cast h1
    linarith
  · rw [div_le_iff₀ (by norm_num : (0 : ℚ) < 5)]
    push_cast
    have h2q : (n : ℚ) ≤ 5 * (k : ℚ) := by exact_mod_cast h2
    linarith

/-- C4: for every ContentPiece produced without an explicit week field
(tier-1 details parsing and tier-2 minimal pieces), the assigned week is
the integer `(content_id - 1) // 5 + 1`, and that expression equals
`ceil(content_id / 5)` for every content id the parser can produce (the
digit captures denote exactly the natural numbers). -/
theorem c4_week_ceil :
    (∀ (cid : Nat) (title : String) (details : List Char),
      scanField (lbl1 ("Week")) capDigits details = none →
        (parseContentDetails cid title details).week = PyVal.intV (weekFormula cid)) ∧
    (∀ (cid : Nat) (title : String),
      (mkMinimalPiece cid title).week = PyVal.intV (weekFormula cid)) ∧
    (∀ n : Nat, weekFormula n = ⌈(n : ℚ) / 5⌉) := by
  refine ⟨?_, fun cid title => rfl, weekFormula_eq_ceil⟩
  intro cid title details h
  simp only [parseContentDetails, h]

/-- Witness for C4 at a concrete input: the details block has no week
field, so the piece's week is the computed `⌈7/5⌉ = 2`. -/
theorem c4_week_ceil_witness :
    (parseContentDetails 7 ("t") (chars ("Channel: X"))).week = PyVal.intV (weekFormula 7) ∧
    weekFormula 7 = 2 :=
  ⟨c4_week_ceil.1 7 ("t") (chars ("Channel: X")) (by decide), by decide⟩


/-- C5 counterexample: the parser happily produces weeks outside 1–5.
The numbered-list input `"26. Foo"` yields a piece whose week is the
integer 6, and an explicit `Week: 9` field is stored as the *string*
`"9"` — in both cases the week is not an integer between 1 and 5. -/
theorem c5_cex :
    extract_content_pieces (chars ("26. Foo")) = [mkMinimalPiece 26 ("Foo")] ∧
    (mkMinimalPiece 26 ("Foo")).week = PyVal.intV 6 ∧
    ¬ ((6 : Int) ≤ 5) ∧
    (extract_content_pieces (chars ("Content #1: T\nWeek: 9"))).map (fun p => p.week) =
      [PyVal.strV ("9")] := by
  refine ⟨by decide, by decide, by decide, by decide⟩

/-- C5 amended: when no explicit week field matches, the week is the
integer `(content_id - 1) // 5 + 1`, which lies in 1–5 exactly when the
content id lies in 1–25; when an explicit `Week:` field matches, the
captured digit string itself (a string, not an integer) is stored. -/
theorem c5_amended :
    ∀ (cid : Nat) (title : String) (details : List Char),
      (scanField (lbl1 ("Week")) capDigits details = none →
        (parseContentDetails cid title details).week = PyVal.intV (weekFormula cid) ∧
        (1 ≤ weekFormula cid ∧ weekFormula cid ≤ 5 ↔ 1 ≤ cid ∧ cid ≤ 25)) ∧
      (∀ ds, scanField (lbl1 ("Week")) capDigits details = some ds →
        (parseContentDetails cid title details).week =
          (if fieldStrip ds = [] then PyVal.intV (weekFormula cid)
           else PyVal.strV (String.mk (fieldStrip ds)))) ∧
      ((mkMinimalPiece cid title).week = PyVal.intV (weekFormula cid) ∧
        (1 ≤ weekFormula cid ∧ weekFormula cid ≤ 5 ↔ 1 ≤ cid ∧ cid ≤ 25)) := by
  intro cid title details
  have hbounds : 1 ≤ weekFormula cid ∧ weekFormula cid ≤ 5 ↔ 1 ≤ cid ∧ cid ≤ 25 := by
    rw [weekFormula_eq_natDiv]
    omega
  refine ⟨fun h => ⟨?_, hbounds⟩, fun ds h => ?_, rfl, hbounds⟩
  · simp only [parseContentDetails, h]
  · simp only [parseContentDetails, h]

/-- Witness for C5 amended, at content id 26 with no week field: the week
is the integer 6 and the bounds equivalence is (falsely ↔ falsely)
satisfied. -/
theorem c5_amended_witness :
    (parseContentDetails 26 ("t") (chars ("x"))).week = PyVal.intV (weekFormula 26) ∧
    (1 ≤ weekFormula 26 ∧ weekFormula 26 ≤ 5 ↔ 1 ≤ 26 ∧ 26 ≤ 25) :=
  (c5_amended 26 ("t") (chars ("x"))).1 (by decide)

/-- C2 counterexample: an unrecognized explicit value is stored verbatim,
so `effort_level` can be arbitrary free text — `"Effort: Extreme"` gives
a parsed piece whose effort level is `"Extreme"`, none of Low, Medium,
High. -/
theorem c2_cex :
    (extract_content_pieces (chars ("Content #1: T\nEffort: Extreme"))).map
        (fun p => p.effort_level) = ["Extreme"] ∧
    ¬ ("Extreme" = "Low" ∨ "Extreme" = "Medium" ∨ "Extreme" = "High") := by
  refine ⟨by decide, by decide⟩

/-- C2 amended: `effort_level` and `engagement_potential` are always
non-empty strings (never the empty capture, never a missing value); they
equal the default `"Medium"` whenever their pattern finds no match (and
in every tier-2 piece), but an explicit unrecognized value is stored
verbatim rather than normalized. -/
theorem c2_amended :
    ∀ (cid : Nat) (title : String) (details : List Char),
      ((parseContentDetails cid title details).effort_level ≠ "" ∧
        (parseContentDetails cid title details).engagement_potential ≠ "") ∧
      (scanField lblEffort capLine details = none →
        (parseContentDetails cid title details).effort_level = "Medium") ∧
      (scanField lblEngagement capLine details = none →
        (parseContentDetails cid title details).engagement_potential = "Medium") ∧
      ((mkMinimalPiece cid title).effort_level = "Medium" ∧
        (mkMinimalPiece cid title).engagement_potential = "Medium") := by
  intro cid title details
  have hne : ∀ (r : Option (List Char)), fieldVal ("Medium") r ≠ "" := by
    intro r
    match r with
    | none => decide
    | some v =>
      simp only [fieldVal]
      by_cases h : fieldStrip v = []
      · simp [h]
      · simp only [h, if_neg]
        intro hmk
        exact h (congrArg String.data hmk)
  refine ⟨⟨hne _, hne _⟩, fun h => ?_, fun h => ?_, rfl, rfl⟩
  · simp only [parseContentDetails, h, fieldVal]
  · simp only [parseContentDetails, h, fieldVal]

/-- Witness for C2 amended at a concrete piece with no effort or
engagement fields. -/
theorem c2_amended_witness :
    (parseContentDetails 1 ("T") (chars ("Channel: X"))).effort_level = "Medium" :=
  ((c2_amended 1 ("T") (chars ("Channel: X"))).2.1) (by decide)

/-- C3 counterexample: on the spec's end-to-end input the single parsed
piece does *not* have title `"Launch Post"` and channel `"LinkedIn"`:
the greedy `[:\s]*` of the header pattern swallows the newline after
`Content #1`, so the whole second line becomes the title, and the channel
capture runs to the end of its line. -/
theorem c3_cex :
    ¬ ((extract_content_pieces (chars c3input)).map (fun p => (p.title, p.channel)) =
        [("Launch Post", "LinkedIn")]) := by
  decide

/-- C3 amended: the input parses to exactly one piece with
`content_id = 1`, `week = 1`, `format = "Video"` and
`call_to_action = "Sign up"` as claimed, but with
`title = "Week 1 | Jan 5, 2025 | Title: Launch Post"` and
`channel = "LinkedIn | Format: Video"`. -/
theorem c3_amended :
    extract_content_pieces (chars c3input) = [c3piece] := by
  decide

/-- C7: on empty input the calendar assembler returns (without raising)
the default aggregate — empty summary, no pieces, the three generic
fallback pillars, empty metrics and quick wins, empty weekly breakdown —
and the strategies assembler returns the empty list. -/
theorem c7_empty_input :
    parse_calendar_outputE ("") =
      Except.ok
        { executive_summary := ""
          content_pieces := []
          pillars := generic3
          weekly_breakdown := []
          success_metrics := []
          quick_wins := [] } ∧
    parse_strategies_outputE ("") = Except.ok [] :=
  ⟨rfl, rfl⟩

/-- C8: the pillar mapping of a parsed calendar is never empty, and
whenever the pillar scan finds nothing it is exactly the three generic
built-in pillars. -/
theorem c8_pillars_fallback :
    ∀ t : String,
      (parse_calendar_output t).pillars ≠ [] ∧
      (scanPillarPairs (chars t) = [] → (parse_calendar_output t).pillars = generic3) := by
  intro t
  have hp : (parse_calendar_output t).pillars = extract_pillars (chars t) := rfl
  rw [hp]
  unfold extract_pillars
  by_cases h : scanPillarPairs (chars t) = []
  · simp [h, generic3]
  · simp [h]

/-- Witness for C8 on the empty input, whose pillar scan finds nothing. -/
theorem c8_pillars_fallback_witness :
    (parse_calendar_output ("")).pillars = generic3 :=
  (c8_pillars_fallback ("")).2 (by decide)


/-! ### Totality of the strategies parser (C1) and the unused dict keys (C10) -/

theorem intE_ok {s : List Char} (h1 : s ≠ []) (h2 : s.all isDigitC = true) :
    intE s = Except.ok (natOfDigits s) := by
  unfold intE
  rw [if_pos ⟨h1, h2⟩]

theorem digitCapture_digits {r0 ds r} (h : digitCapture r0 = some (ds, r)) :
    ds ≠ [] ∧ ds.all isDigitC = true := by
  unfold digitCapture at h
  by_cases hd : r0.takeWhile isDigitC = []
  · simp [hd] at h
  · rw [if_neg hd] at h
    simp only [Option.some.injEq, Prod.mk.injEq] at h
    obtain ⟨h1, _⟩ := h
    subst h1
    exact ⟨hd, List.all_eq_true.2 (fun x hx => List.mem_takeWhile_imp hx)⟩

theorem strategyHeaderAt_digits {cs ds r} (h : strategyHeaderAt cs = some (ds, r)) :
    ds ≠ [] ∧ ds.all isDigitC = true := by
  unfold strategyHeaderAt at h
  cases hl : litCI ("Strategy") cs with
  | none => rw [hl] at h; exact Option.noConfusion h
  | some r1 =>
    rw [hl] at h
    dsimp only at h
    by_cases hw : r1.takeWhile isPySpace = []
    · rw [if_pos hw] at h; exact Option.noConfusion h
    · rw [if_neg hw] at h; exact digitCapture_digits h

theorem tryStratAt_digits {cs m rest} (h : tryStratAt cs = some (m, rest)) :
    m.1 ≠ [] ∧ m.1.all isDigitC = true := by
  unfold tryStratAt at h
  cases hh : strategyHeaderAt cs with
  | none => rw [hh] at h; exact Option.noConfusion h
  | some dsr =>
    obtain ⟨ds, r⟩ := dsr
    rw [hh] at h
    dsimp only at h
    cases ht : strategyHeaderTail r with
    | none => rw [ht] at h; exact Option.noConfusion h
    | some b =>
      rw [ht] at h
      simp only [Option.some.injEq, Prod.mk.injEq] at h
      obtain ⟨h1, -⟩ := h
      rw [← h1]
      exact strategyHeaderAt_digits hh

theorem stratLoopF_succ (f : Nat) (cs : List Char) :
    stratLoopF (f + 1) cs =
      (match tryStratAt cs with
       | some (m, rest) => m :: stratLoopF f rest
       | none =>
         match cs with
         | [] => []
         | _ :: t => stratLoopF f t) := rfl

theorem stratLoopF_digits :
    ∀ (fuel : Nat) (cs : List Char), ∀ m ∈ stratLoopF fuel cs,
      m.1 ≠ [] ∧ m.1.all isDigitC = true := by
  intro fuel
  induction fuel with
  | zero => intro cs m hm; exact absurd hm (by intro h; cases h)
  | succ f ih =>
    intro cs m hm
    rw [stratLoopF_succ] at hm
    cases ht : tryStratAt cs with
    | some mr =>
      rw [ht] at hm
      rcases List.mem_cons.1 hm with h | h
      · subst h; exact tryStratAt_digits ht
      · exact ih _ _ h
    | none =>
      rw [ht] at hm
      cases cs with
      | nil => cases hm
      | cons c t => exact ih _ _ hm

theorem stratLoop_digits (cs : List Char) :
    ∀ m ∈ stratLoop cs, m.1 ≠ [] ∧ m.1.all isDigitC = true :=
  stratLoopF_digits _ cs

theorem mapM_eq_ok_map {α β : Type} (f : α → Except String β) (g : α → β)
    (l : List α) (h : ∀ a ∈ l, f a = Except.ok (g a)) :
    l.mapM f = Except.ok (l.map g) := by
  induction l with
  | nil => rfl
  | cons a t ih =>
    rw [List.mapM_cons, h a (List.mem_cons_self a t),
      ih (fun x hx => h x (List.mem_cons_of_mem a hx))]
    rfl

theorem parse_strategies_eq_map (s : String) :
    parse_strategies_outputE s =
      Except.ok ((stratLoop (chars s)).map
        (fun m => buildStrategy (natOfDigits m.1) m.2)) := by
  unfold parse_strategies_outputE
  refine mapM_eq_ok_map _ _ _ (fun m hm => ?_)
  obtain ⟨h1, h2⟩ := stratLoop_digits _ m hm
  rw [intE_ok h1 h2]
  rfl

/-- C1: on every input string, both parsers return a result without an
exception escaping: the calendar assembler is total (its only fallible
statements sit in the tier loops under `try/except`, whose `except`
branch skips the entry — third conjunct), and in the strategies parser
the one unguarded fallible call, `int(match.group(1))`, always succeeds
because the capture is a non-empty digit run. -/
theorem c1_no_exception :
    ∀ s : String,
      (parse_calendar_outputE s).isOk = true ∧
      (parse_strategies_outputE s).isOk = true ∧
      (∀ (acc : List Piece) (e : String), catchSkip acc (Except.error e) = acc) := by
  intro s
  refine ⟨rfl, ?_, fun acc e => rfl⟩
  rw [parse_strategies_eq_map]
  rfl

/-- C10: every strategy record carries the keys `posting_frequency` and
`content_mix` (present in the record type, absent from the spec's
ContentStrategy data model), and they are the empty mapping on every
input — no extraction logic ever assigns them. -/
theorem c10_unused_fields :
    ∀ (t : String) (l : List Strategy),
      parse_strategies_outputE t = Except.ok l →
      ∀ s ∈ l, s.posting_frequency = [] ∧ s.content_mix = [] := by
  intro t l h s hs
  rw [parse_strategies_eq_map] at h
  injection h with h
  subst h
  obtain ⟨m, _, rfl⟩ := List.mem_map.1 hs
  exact ⟨rfl, rfl⟩

/-- Witness for C10 on a one-strategy document. -/
theorem c10_unused_fields_witness :
    (buildStrategy 1 (chars stratBodyW)).posting_frequency = [] ∧
    (buildStrategy 1 (chars stratBodyW)).content_mix = [] :=
  c10_unused_fields stratDocW [buildStrategy 1 (chars stratBodyW)] rfl
    (buildStrategy 1 (chars stratBodyW)) (List.mem_singleton.2 rfl)


/-! ### The tier-2 fallback (C6) -/

theorem tier2Core_digits {r0 m rest} (h : tier2Core r0 = some (m, rest)) :
    m.1 ≠ [] ∧ m.1.all isDigitC = true := by
  unfold tier2Core at h
  cases hd : digitCapture (r0.dropWhile isPySpace) with
  | none => rw [hd] at h; exact Option.noConfusion h
  | some da =>
    obtain ⟨ds, after⟩ := da
    rw [hd] at h
    dsimp only at h
    split at h
    · rename_i r2
      cases hc : capWsLine r2 with
      | none => rw [hc] at h; exact Option.noConfusion h
      | some vr =>
        obtain ⟨v, rr⟩ := vr
        rw [hc] at h
        simp only [Option.some.injEq, Prod.mk.injEq] at h
        obtain ⟨h1, -⟩ := h
        rw [← h1]
        exact digitCapture_digits hd
    · rename_i r2
      cases hc : capWsLine r2 with
      | none => rw [hc] at h; exact Option.noConfusion h
      | some vr =>
        obtain ⟨v, rr⟩ := vr
        rw [hc] at h
        simp only [Option.some.injEq, Prod.mk.injEq] at h
        obtain ⟨h1, -⟩ := h
        rw [← h1]
        exact digitCapture_digits hd
    · exact Option.noConfusion h

theorem tryTier2At_false (cs : List Char) :
    tryTier2At false cs =
      (match cs with
       | '\n' :: t => tier2Core t
       | _ => none) := rfl

theorem tryTier2At_digits {b : Bool} {cs m rest}
    (h : tryTier2At b cs = some (m, rest)) :
    m.1 ≠ [] ∧ m.1.all isDigitC = true := by
  cases b with
  | true => exact tier2Core_digits h
  | false =>
    rw [tryTier2At_false] at h
    split at h
    · exact tier2Core_digits h
    · exact Option.noConfusion h

theorem tier2LoopF_succ (f : Nat) (b : Bool) (cs : List Char) :
    tier2LoopF (f + 1) b cs =
      (match tryTier2At b cs with
       | some (m, rest) => m :: tier2LoopF f false rest
       | none =>
         match cs with
         | [] => []
         | _ :: t => tier2LoopF f false t) := rfl

theorem tier2LoopF_digits :
    ∀ (fuel : Nat) (b : Bool) (cs : List Char), ∀ m ∈ tier2LoopF fuel b cs,
      m.1 ≠ [] ∧ m.1.all isDigitC = true := by
  intro fuel
  induction fuel with
  | zero => intro b cs m hm; exact absurd hm (by intro h; cases h)
  | succ f ih =>
    intro b cs m hm
    rw [tier2LoopF_succ] at hm
    cases ht : tryTier2At b cs with
    | some mr =>
      rw [ht] at hm
      rcases List.mem_cons.1 hm with h | h
      · subst h; exact tryTier2At_digits ht
      · exact ih _ _ _ h
    | none =>
      rw [ht] at hm
      cases cs with
      | nil => cases hm
      | cons c t => exact ih _ _ _ hm

theorem foldl_catchSkip_eq_map {α : Type} (f : α → Except String Piece)
    (g : α → Piece) (l : List α) (h : ∀ a ∈ l, f a = Except.ok (g a)) :
    ∀ acc, l.foldl (fun acc m => catchSkip acc (f m)) acc = acc ++ l.map g := by
  induction l with
  | nil => intro acc; simp
  | cons a t ih =>
    intro acc
    rw [List.foldl_cons, h a (List.mem_cons_self a t),
      ih (fun x hx => h x (List.mem_cons_of_mem a hx))]
    simp [catchSkip]

/-- C6: the numbered-list fallback runs exactly when the tier-1 header
pattern found zero matches; in that case the result is one minimal piece
per tier-2 match — id, whitespace-stripped title and computed week
populated, every other field at its documented default.  When tier 1
matched, the result is the tier-1 fold and tier 2 is never consulted. -/
theorem c6_tier2_fallback :
    ∀ t : String,
      (tier1Loop (chars t) = [] →
        extract_content_pieces (chars t) =
          (tier2Loop true (chars t)).map
            (fun m => mkMinimalPiece (natOfDigits m.1) (String.mk (pyStripWs m.2)))) ∧
      (tier1Loop (chars t) ≠ [] →
        extract_content_pieces (chars t) =
          (tier1Loop (chars t)).foldl (fun acc m => catchSkip acc (tier1PieceE m)) []) ∧
      (∀ (cid : Nat) (title : String),
        (mkMinimalPiece cid title).content_id = cid ∧
        (mkMinimalPiece cid title).title = title ∧
        (mkMinimalPiece cid title).week = PyVal.intV (weekFormula cid) ∧
        (mkMinimalPiece cid title).suggested_date = "" ∧
        (mkMinimalPiece cid title).channel = "" ∧
        (mkMinimalPiece cid title).format = "" ∧
        (mkMinimalPiece cid title).pillar = "" ∧
        (mkMinimalPiece cid title).key_message = "" ∧
        (mkMinimalPiece cid title).description = "" ∧
        (mkMinimalPiece cid title).call_to_action = "" ∧
        (mkMinimalPiece cid title).effort_level = "Medium" ∧
        (mkMinimalPiece cid title).effort_explanation = "" ∧
        (mkMinimalPiece cid title).engagement_potential = "Medium" ∧
        (mkMinimalPiece cid title).engagement_reasoning = "" ∧
        (mkMinimalPiece cid title).seo_keyword = "" ∧
        (mkMinimalPiece cid title).execution_notes = "") := by
  intro t
  have hdef : extract_content_pieces (chars t) =
      (if (tier1Loop (chars t)).isEmpty then
        (tier2Loop true (chars t)).foldl (fun acc m => catchSkip acc (tier2PieceE m)) []
      else
        (tier1Loop (chars t)).foldl (fun acc m => catchSkip acc (tier1PieceE m)) []) := rfl
  refine ⟨fun h => ?_, fun h => ?_,
    fun cid title =>
      ⟨rfl, rfl, rfl, rfl, rfl, rfl, rfl, rfl, rfl, rfl, rfl, rfl, rfl, rfl, rfl, rfl⟩⟩
  · rw [hdef, h]
    have hall : ∀ m ∈ tier2Loop true (chars t),
        tier2PieceE m =
          Except.ok (mkMinimalPiece (natOfDigits m.1) (String.mk (pyStripWs m.2))) := by
      intro m hm
      obtain ⟨h1, h2⟩ := tier2LoopF_digits _ _ _ m hm
      unfold tier2PieceE
      rw [intE_ok h1 h2]
      rfl
    rw [foldl_catchSkip_eq_map _ _ _ hall []]
    rfl
  · cases hl : tier1Loop (chars t) with
    | nil => exact absurd hl h
    | cons a l => rw [hdef, hl]; rfl

/-- Witness for C6 on a two-line numbered list with no tier-1 headers. -/
theorem c6_tier2_fallback_witness :
    extract_content_pieces (chars ("1. A\n2) B")) =
      (tier2Loop true (chars ("1. A\n2) B"))).map
        (fun m => mkMinimalPiece (natOfDigits m.1) (String.mk (pyStripWs m.2))) :=
  (c6_tier2_fallback ("1. A\n2) B")).1 (by decide)

/-! ### Scanning machinery for C9 -/

theorem stripCI_cons (p c : Char) (pr t : List Char) :
    stripCI (p :: pr) (c :: t) = if lc p = lc c then stripCI pr t else none := rfl

theorem startsCI_cons (p c : Char) (pr t : List Char) :
    startsCI (p :: pr) (c :: t) = (decide (lc p = lc c) && startsCI pr t) := by
  unfold startsCI
  rw [stripCI_cons]
  by_cases h : lc p = lc c <;> simp [h]

theorem startsCI_nil_pat (cs : List Char) : startsCI [] cs = true := rfl

theorem occursCI_cons (pat : List Char) (c : Char) (t : List Char) :
    occursCI pat (c :: t) = (startsCI pat (c :: t) || occursCI pat t) := rfl

theorem occursCI_of_drop {pat L : List Char} (n : Nat)
    (h : startsCI pat (L.drop n) = true) : occursCI pat L = true := by
  induction L generalizing n with
  | nil => simpa using h
  | cons c t ih =>
    cases n with
    | zero => rw [occursCI_cons]; rw [List.drop_zero] at h; simp [h]
    | succ m =>
      rw [occursCI_cons]
      rw [List.drop_succ_cons] at h
      simp [ih m h]

theorem startsCI_through_nl {pat : List Char}
    (hpat : pat.all (fun c => ¬ (lc c = '\n')) = true) :
    ∀ (A B : List Char), startsCI pat (A ++ '\n' :: B) = true → startsCI pat A = true := by
  induction pat with
  | nil => intro A B _; exact startsCI_nil_pat A
  | cons p pr ih =>
    intro A B h
    have hp : ¬ (lc p = '\n') := by
      have := List.all_eq_true.1 hpat p (List.mem_cons_self p pr)
      simpa using this
    have hpr : pr.all (fun c => ¬ (lc c = '\n')) = true :=
      List.all_eq_true.2 (fun x hx => List.all_eq_true.1 hpat x (List.mem_cons_of_mem p hx))
    cases A with
    | nil =>
      rw [List.nil_append, startsCI_cons] at h
      have : lc p = lc '\n' := of_decide_eq_true (Bool.and_elim_left h)
      exact absurd this hp
    | cons a t =>
      rw [List.cons_append, startsCI_cons] at h
      rw [startsCI_cons]
      have h1 := Bool.and_elim_left h
      have h2 := Bool.and_elim_right h
      rw [h1, ih hpr t B h2]
      rfl

theorem scanToStop_cons (stop : List Char → Bool) (c : Char) (t : List Char) :
    scanToStop stop (c :: t) =
      if stop (c :: t) then ([], c :: t)
      else (c :: (scanToStop stop t).1, (scanToStop stop t).2) := rfl

theorem scanToStop_of_stop {stop : List Char → Bool} {cs : List Char}
    (h : stop cs = true) : scanToStop stop cs = ([], cs) := by
  cases cs with
  | nil => rfl
  | cons c t => rw [scanToStop_cons, if_pos h]

theorem scanToStop_append {stop : List Char → Bool} {A B : List Char}
    (hA : noHit stop A B) :
    scanToStop stop (A ++ B) =
      (A ++ (scanToStop stop B).1, (scanToStop stop B).2) := by
  induction A with
  | nil => simp
  | cons a t ih =>
    have h0 : stop (a :: (t ++ B)) = false := by
      have h00 := hA 0 (by simp)
      rw [List.drop_zero, List.cons_append] at h00
      exact h00
    rw [List.cons_append, scanToStop_cons, h0]
    have ht : noHit stop t B := by
      intro n hn
      have h01 := hA (n + 1) (by simpa using Nat.succ_lt_succ hn)
      rw [List.drop_succ_cons] at h01
      exact h01
    simp only [Bool.false_eq_true, if_false]
    rw [ih ht]
    simp

theorem noHit_nil (f : List Char → Bool) (B : List Char) : noHit f [] B := by
  intro n hn
  simp at hn

theorem noHit_append {f : List Char → Bool} {A1 A2 B : List Char}
    (h1 : noHit f A1 (A2 ++ B)) (h2 : noHit f A2 B) : noHit f (A1 ++ A2) B := by
  intro n hn
  by_cases hlt : n < A1.length
  · rw [List.drop_append_of_le_length (Nat.le_of_lt hlt), List.append_assoc]
    exact h1 n hlt
  · have hle : A1.length ≤ n := Nat.le_of_not_lt hlt
    obtain ⟨m, rfl⟩ := Nat.exists_eq_add_of_le hle
    rw [List.drop_append]
    refine h2 m ?_
    rw [List.length_append] at hn
    omega

theorem noHit_cons {f : List Char → Bool} {c : Char} {A B : List Char}
    (h0 : f (c :: (A ++ B)) = false) (h1 : noHit f A B) : noHit f (c :: A) B := by
  intro n hn
  cases n with
  | zero => simpa using h0
  | succ m =>
    rw [List.drop_succ_cons]
    exact h1 m (by simpa using Nat.lt_of_succ_lt_succ hn)

theorem dollarAt_false_of_len {l : List Char} (h : 2 ≤ l.length) :
    dollarAt l = false := by
  simp only [dollarAt, decide_eq_false_iff_not]
  rintro (rfl | rfl) <;> simp at h

theorem strategyHeaderAt_none {cs : List Char}
    (h : startsCI (chars ("Strategy")) cs = false) : strategyHeaderAt cs = none := by
  unfold strategyHeaderAt
  cases hl : litCI ("Strategy") cs with
  | none => rfl
  | some r =>
    exfalso
    have hT : startsCI (chars ("Strategy")) cs = true := by
      unfold startsCI chars
      unfold litCI at hl
      rw [hl]
      rfl
    rw [hT] at h
    exact Bool.noConfusion h

theorem stopStrat_eq_false {cs : List Char}
    (h1 : startsCI (chars ("Strategy")) cs = false)
    (h2 : startsCI (chars ("RECOMMENDATION")) cs = false)
    (h3 : startsCI (chars ("## RECOMMENDATION")) cs = false)
    (h4 : dollarAt cs = false) : stopStrat cs = false := by
  unfold stopStrat
  rw [strategyHeaderAt_none h1, h2, h3, h4]
  rfl

theorem stopNlLit_ne_nl {s : String} {c : Char} {t : List Char} (h : ¬ (c = '\n')) :
    stopNlLit s (c :: t) = false := by
  unfold stopNlLit
  split
  · rename_i heq
    injection heq with h1 _
    exact absurd h1 h
  · rfl

theorem stopStarStarAlpha_ne_nl {c : Char} {t : List Char} (h : ¬ (c = '\n')) :
    stopStarStarAlpha (c :: t) = false := by
  unfold stopStarStarAlpha
  split
  · rename_i heq
    injection heq with h1 _
    exact absurd h1 h
  · rfl

theorem dollarAt_ne_nl {c : Char} {t : List Char} (h : ¬ (c = '\n')) :
    dollarAt (c :: t) = false := by
  simp only [dollarAt, decide_eq_false_iff_not]
  rintro (hh | hh) <;> simp_all

theorem stopPros_ne_nl {c : Char} {t : List Char} (h : ¬ (c = '\n')) :
    stopPros (c :: t) = false := by
  unfold stopPros
  rw [stopNlLit_ne_nl h, stopStarStarAlpha_ne_nl h, dollarAt_ne_nl h]
  rfl

theorem stopCons_ne_nl {c : Char} {t : List Char} (h : ¬ (c = '\n')) :
    stopCons (c :: t) = false := by
  unfold stopCons
  rw [stopStarStarAlpha_ne_nl h, dollarAt_ne_nl h]
  rfl

theorem noHit_of_all {f : List Char → Bool} {A B : List Char}
    (h : ∀ n, f (A.drop n ++ B) = false) : noHit f A B :=
  fun n _ => h n

theorem startsCI_head_mismatch {p c : Char} (pr : List Char) (h : ¬ (lc p = lc c))
    (X : List Char) : startsCI (p :: pr) (c :: X) = false := by
  rw [startsCI_cons]
  simp [h]

theorem startsCI_false_chunk {pat A T : List Char}
    (hpat : pat.all (fun c => ¬ (lc c = '\n')) = true)
    (hocc : occursCI pat A = false)
    (hT : T = [] ∨ ∃ T', T = '\n' :: T') :
    ∀ n, startsCI pat (A.drop n ++ T) = false := by
  intro n
  by_cases hb : startsCI pat (A.drop n ++ T) = true
  · exfalso
    have hAd : startsCI pat (A.drop n) = true := by
      rcases hT with rfl | ⟨T', rfl⟩
      · rw [List.append_nil] at hb; exact hb
      · exact startsCI_through_nl hpat _ _ hb
    have hocc2 := occursCI_of_drop n hAd
    rw [hocc2] at hocc
    exact Bool.noConfusion hocc
  · simpa using hb

theorem noHit_startsCI_ptN {pat : List Char} {bs : List String} {B : List Char}
    (hpat : pat.all (fun c => ¬ (lc c = '\n')) = true)
    (hnl : ∀ X, startsCI pat ('\n' :: X) = false)
    (hda : ∀ X, startsCI pat ('-' :: X) = false)
    (hsp : ∀ X, startsCI pat (' ' :: X) = false)
    (hbul : ∀ b ∈ bs, occursCI pat (chars b) = false)
    (hB : B = [] ∨ ∃ B', B = '\n' :: B') :
    noHit (fun cs => startsCI pat cs) (ptN bs) B := by
  induction bs with
  | nil => exact noHit_nil _ _
  | cons b bs' ih =>
    show noHit _ ('\n' :: '-' :: ' ' :: (chars b ++ ptN bs')) B
    refine noHit_cons (hnl _) (noHit_cons (hda _) (noHit_cons (hsp _) ?_))
    refine noHit_append (noHit_of_all ?_)
      (ih (fun x hx => hbul x (List.mem_cons_of_mem _ hx)))
    intro n
    refine startsCI_false_chunk hpat (hbul b (List.mem_cons_self _ _)) ?_ n
    cases bs' with
    | nil => exact hB
    | cons b2 r => exact Or.inr ⟨_, rfl⟩

theorem noHit_startsCI_captN {pat : List Char} {bs : List String} {B : List Char}
    (hpat : pat.all (fun c => ¬ (lc c = '\n')) = true)
    (hnl : ∀ X, startsCI pat ('\n' :: X) = false)
    (hda : ∀ X, startsCI pat ('-' :: X) = false)
    (hsp : ∀ X, startsCI pat (' ' :: X) = false)
    (hbul : ∀ b ∈ bs, occursCI pat (chars b) = false)
    (hB : B = [] ∨ ∃ B', B = '\n' :: B') :
    noHit (fun cs => startsCI pat cs) (captN bs) B := by
  cases bs with
  | nil => exact noHit_nil _ _
  | cons b bs' =>
    show noHit _ ('-' :: ' ' :: (chars b ++ ptN bs')) B
    refine noHit_cons (hda _) (noHit_cons (hsp _) ?_)
    refine noHit_append (noHit_of_all ?_)
      (noHit_startsCI_ptN hpat hnl hda hsp
        (fun x hx => hbul x (List.mem_cons_of_mem _ hx)) hB)
    intro n
    refine startsCI_false_chunk hpat (hbul b (List.mem_cons_self _ _)) ?_ n
    cases bs' with
    | nil => exact hB
    | cons b2 r => exact Or.inr ⟨_, rfl⟩

theorem noHit_dollar {A B : List Char} (hB : B ≠ []) : noHit dollarAt A B := by
  intro n hn
  apply dollarAt_false_of_len
  rw [List.length_append, List.length_drop]
  cases B with
  | nil => exact absurd rfl hB
  | cons x xs => simp; omega

theorem noHit_stopStrat_of {A B : List Char}
    (h1 : noHit (fun cs => startsCI (chars ("Strategy")) cs) A B)
    (h2 : noHit (fun cs => startsCI (chars ("RECOMMENDATION")) cs) A B)
    (h3 : noHit (fun cs => startsCI (chars ("## RECOMMENDATION")) cs) A B)
    (hB : B ≠ []) :
    noHit stopStrat A B := fun n hn =>
  stopStrat_eq_false (h1 n hn) (h2 n hn) (h3 n hn) (noHit_dollar hB n hn)

theorem safeBullet_occ {b : String} (h : safeBullet b = true) :
    occursCI (chars ("Strategy")) (chars b) = false ∧
    occursCI (chars ("RECOMMENDATION")) (chars b) = false ∧
    occursCI (chars ("## RECOMMENDATION")) (chars b) = false ∧
    occursCI (chars ("Cons")) (chars b) = false := by
  simp only [safeBullet, Bool.and_eq_true, decide_eq_true_eq] at h
  simp_all

theorem safeBullet_shape {b : String} (h : safeBullet b = true) :
    ¬ (chars b = []) ∧ (chars b).all (fun c => ¬ (c = '\n')) = true ∧
    bulletStripSet.contains ((chars b).headD ' ') = false ∧
    bulletStripSet.contains ((chars b).reverse.headD ' ') = false := by
  simp only [safeBullet, Bool.and_eq_true, decide_eq_true_eq] at h
  simp_all

/-! ### Line splitting and bullet stripping (C9) -/

theorem pySplit_cons (s c : Char) (t : List Char) :
    pySplit s (c :: t) =
      if c = s then [] :: pySplit s t
      else
        match pySplit s t with
        | [] => [[c]]
        | h :: r => (c :: h) :: r := rfl

theorem pySplit_shape (s : Char) (l : List Char) :
    ∃ h t, pySplit s l = h :: t := by
  induction l with
  | nil => exact ⟨[], [], rfl⟩
  | cons c l' ih =>
    obtain ⟨h, t, hh⟩ := ih
    rw [pySplit_cons]
    by_cases hc : c = s
    · rw [if_pos hc]; exact ⟨[], pySplit s l', rfl⟩
    · rw [if_neg hc, hh]; exact ⟨c :: h, t, rfl⟩

theorem pySplit_no_nl_append {A : List Char} (r : List Char)
    (hA : ∀ c ∈ A, ¬ (c = '\n')) :
    pySplit '\n' (A ++ r) =
      (A ++ (pySplit '\n' r).headD []) :: (pySplit '\n' r).tail := by
  induction A with
  | nil =>
    obtain ⟨h, t, hh⟩ := pySplit_shape '\n' r
    simp [hh]
  | cons a A' ih =>
    have ha : ¬ (a = '\n') := hA a (List.mem_cons_self _ _)
    rw [List.cons_append, pySplit_cons, if_neg ha,
      ih (fun c hc => hA c (List.mem_cons_of_mem _ hc))]
    simp

theorem pySplit_nl_cons (t : List Char) :
    pySplit '\n' ('\n' :: t) = [] :: pySplit '\n' t := rfl

theorem ptN_eq_cons (b : String) (bs : List String) :
    ptN (b :: bs) = '\n' :: captN (b :: bs) := rfl

theorem pySplit_captN {bs : List String}
    (hbs : ∀ b ∈ bs, (chars b).all (fun c => ¬ (c = '\n')) = true) (hne : bs ≠ []) :
    pySplit '\n' (captN bs) = bs.map (fun b => '-' :: ' ' :: chars b) := by
  induction bs with
  | nil => exact absurd rfl hne
  | cons b bs' ih =>
    have hbnl : ∀ c ∈ chars b, ¬ (c = '\n') := by
      intro c hc
      have := List.all_eq_true.1 (hbs b (List.mem_cons_self _ _)) c hc
      simpa using this
    have hline : ∀ c ∈ '-' :: ' ' :: chars b, ¬ (c = '\n') := by
      intro c hc
      rcases List.mem_cons.1 hc with rfl | hc2
      · simp
      · rcases List.mem_cons.1 hc2 with rfl | hc3
        · simp
        · exact hbnl c hc3
    cases bs' with
    | nil =>
      show pySplit '\n' ('-' :: ' ' :: (chars b ++ [])) = _
      rw [List.append_nil]
      have hsp := pySplit_no_nl_append [] hline
      rw [List.append_nil] at hsp
      rw [hsp]
      simp [show pySplit '\n' ([] : List Char) = [[]] from rfl]
    | cons b2 r =>
      show pySplit '\n' ('-' :: ' ' :: (chars b ++ ptN (b2 :: r))) = _
      rw [ptN_eq_cons]
      have hstep : ('-' :: ' ' :: (chars b ++ '\n' :: captN (b2 :: r))) =
          (('-' :: ' ' :: chars b) ++ ('\n' :: captN (b2 :: r))) := by simp
      rw [hstep, pySplit_no_nl_append _ hline, pySplit_nl_cons]
      rw [ih (fun x hx => hbs x (List.mem_cons_of_mem _ hx)) (by simp)]
      simp

theorem pyStripWs_dash_head (X : List Char) :
    ∃ Y, pyStripWs ('-' :: X) = '-' :: Y := by
  unfold pyStripWs
  rw [List.dropWhile_cons_of_neg (by simp [isPySpace])]
  rw [show ('-' :: X).reverse = X.reverse ++ ['-'] from by simp]
  rw [List.dropWhile_append]
  by_cases he : (List.dropWhile isPySpace X.reverse).isEmpty = true
  · rw [if_pos he]
    exact ⟨[], by simp [isPySpace]⟩
  · rw [if_neg he]
    exact ⟨(List.dropWhile isPySpace X.reverse).reverse, by simp⟩

theorem pyStrip_bullet {b : String} (h : safeBullet b = true) :
    pyStrip bulletStripSet ('-' :: ' ' :: chars b) = chars b := by
  obtain ⟨hne, hnl, hhead, hlast⟩ := safeBullet_shape h
  unfold pyStrip
  have h1 : List.dropWhile (fun c => bulletStripSet.contains c) ('-' :: ' ' :: chars b)
      = chars b := by
    rw [List.dropWhile_cons_of_pos (by simp [bulletStripSet]),
      List.dropWhile_cons_of_pos (by simp [bulletStripSet])]
    cases hcb : chars b with
    | nil => rfl
    | cons c0 t0 =>
      rw [hcb] at hhead
      exact List.dropWhile_cons_of_neg (by simp_all)
  rw [h1]
  have h2 : List.dropWhile (fun c => bulletStripSet.contains c) (chars b).reverse
      = (chars b).reverse := by
    cases hr : (chars b).reverse with
    | nil => rfl
    | cons l0 r0 =>
      rw [hr] at hlast
      exact List.dropWhile_cons_of_neg (by simp_all)
  rw [h2, List.reverse_reverse]

theorem mk_chars (b : String) : String.mk (chars b) = b := rfl

theorem filterMap_eq_self_of {α : Type} (f : α → Option α) (l : List α)
    (h : ∀ a ∈ l, f a = some a) : l.filterMap f = l := by
  induction l with
  | nil => rfl
  | cons a t ih =>
    rw [List.filterMap_cons, h a (List.mem_cons_self _ _),
      ih (fun x hx => h x (List.mem_cons_of_mem _ hx))]

theorem bulletItems_captN {bs : List String}
    (h : ∀ b ∈ bs, safeBullet b = true) (hne : bs ≠ []) :
    bulletItems (captN bs) = bs := by
  unfold bulletItems
  rw [pySplit_captN (fun b hb => (safeBullet_shape (h b hb)).2.1) hne,
    List.filterMap_map]
  refine filterMap_eq_self_of _ _ (fun b hb => ?_)
  obtain ⟨Y, hY⟩ := pyStripWs_dash_head (' ' :: chars b)
  simp only [Function.comp]
  rw [hY]
  rw [if_neg (by simp)]
  rw [if_neg (by simp)]
  rw [show ([' ', '-', '•', '\n'] : List Char) = bulletStripSet from rfl,
    pyStrip_bullet (h b hb)]
  rfl

/-! ### Stop evaluation over bullet lists and label search (C9) -/

theorem stopPros_nl_dash (X : List Char) : stopPros ('\n' :: '-' :: X) = false := by
  unfold stopPros
  have h1 : stopNlLit ("Cons") ('\n' :: '-' :: X) = false := by
    show startsCI (chars ("Cons")) ('-' :: X) = false
    rw [show chars ("Cons") = 'C' :: chars ("ons") from rfl]
    exact startsCI_head_mismatch _ (by decide) X
  have h2 : stopStarStarAlpha ('\n' :: '-' :: X) = false := rfl
  have h3 : dollarAt ('\n' :: '-' :: X) = false := dollarAt_false_of_len (by simp)
  rw [h1, h2, h3]
  rfl

theorem stopCons_nl_dash (X : List Char) : stopCons ('\n' :: '-' :: X) = false := by
  unfold stopCons
  have h2 : stopStarStarAlpha ('\n' :: '-' :: X) = false := rfl
  have h3 : dollarAt ('\n' :: '-' :: X) = false := dollarAt_false_of_len (by simp)
  rw [h2, h3]
  rfl

theorem noHit_stop_bullets (stop : List Char → Bool)
    (hne : ∀ (c : Char) (t : List Char), ¬ (c = '\n') → stop (c :: t) = false)
    (hnd : ∀ X, stop ('\n' :: '-' :: X) = false) :
    ∀ (bs : List String) (X : List Char), (∀ b ∈ bs, safeBullet b = true) →
      noHit stop (ptN bs) X ∧ noHit stop (captN bs) X := by
  intro bs
  induction bs with
  | nil => exact fun X _ => ⟨noHit_nil _ _, noHit_nil _ _⟩
  | cons b bs' ih =>
    intro X hsafe
    have hb := hsafe b (List.mem_cons_self _ _)
    have hrest := fun x hx => hsafe x (List.mem_cons_of_mem _ hx)
    have hchunk : noHit stop (chars b) (ptN bs' ++ X) := by
      intro n hn
      cases hd : (chars b).drop n with
      | nil =>
        exfalso
        have : (chars b).length - n = 0 := by rw [← List.length_drop, hd]; rfl
        omega
      | cons d r =>
        have hdm : d ∈ chars b := List.drop_subset n (chars b) (hd ▸ List.mem_cons_self d r)
        have hdnl : ¬ (d = '\n') := by
          have := List.all_eq_true.1 (safeBullet_shape hb).2.1 d hdm
          simpa using this
        rw [List.cons_append]
        exact hne d _ hdnl
    have hcapt : noHit stop (captN (b :: bs')) X := by
      show noHit stop ('-' :: ' ' :: (chars b ++ ptN bs')) X
      refine noHit_cons (hne '-' _ (by decide)) (noHit_cons (hne ' ' _ (by decide)) ?_)
      exact noHit_append hchunk (ih X hrest).1
    refine ⟨?_, hcapt⟩
    show noHit stop ('\n' :: captN (b :: bs')) X
    refine noHit_cons ?_ hcapt
    show stop ('\n' :: (captN (b :: bs') ++ X)) = false
    exact hnd _

theorem scanField_cons (lbl : List Char → List (List Char))
    (cap : List Char → Option (List Char × List Char)) (c : Char) (t : List Char) :
    scanField lbl cap (c :: t) =
      (match tryCaps cap (lbl (c :: t)) with
       | some (v, _) => some v
       | none => scanField lbl cap t) := rfl

theorem scanField_append {lbl : List Char → List (List Char)}
    {cap : List Char → Option (List Char × List Char)} {A B : List Char}
    (hA : ∀ n, n < A.length → tryCaps cap (lbl (A.drop n ++ B)) = none) :
    scanField lbl cap (A ++ B) = scanField lbl cap B := by
  induction A with
  | nil => rfl
  | cons a t ih =>
    have h0 : tryCaps cap (lbl (a :: (t ++ B))) = none := by
      have h00 := hA 0 (by simp)
      rw [List.drop_zero, List.cons_append] at h00
      exact h00
    rw [List.cons_append, scanField_cons, h0]
    exact ih (fun n hn => by
      have h01 := hA (n + 1) (by simpa using Nat.succ_lt_succ hn)
      rw [List.drop_succ_cons] at h01
      exact h01)

theorem lbl1_eq_nil {s : String} {cs : List Char}
    (h : startsCI (chars s) cs = false) : lbl1 s cs = [] := by
  unfold lbl1 litCI
  unfold startsCI chars at h
  cases hl : stripCI s.data cs with
  | none => rfl
  | some r => rw [hl] at h; simp at h

theorem tryCaps_lbl1_none {s : String} {cs : List Char}
    {cap : List Char → Option (List Char × List Char)}
    (h : startsCI (chars s) cs = false) :
    tryCaps cap (lbl1 s cs) = none := by
  rw [lbl1_eq_nil h]
  rfl

/-! ### Section extraction on a canonical body (C9) -/

theorem scanField_hit {lbl : List Char → List (List Char)}
    {cap : List Char → Option (List Char × List Char)} {c : Char} {t : List Char}
    {v r : List Char} (h : tryCaps cap (lbl (c :: t)) = some (v, r)) :
    scanField lbl cap (c :: t) = some v := by
  rw [scanField_cons, h]

theorem prosOf_body {ps cs : List String} {B : List Char}
    (hps : ∀ b ∈ ps, safeBullet b = true)
    (hpne : ps ≠ []) (hB : B = [] ∨ B = ['\n']) :
    prosOf (bodyMid ps cs ++ B) = ps := by
  obtain ⟨p0, ps', rfl⟩ : ∃ p0 ps', ps = p0 :: ps' := by
    cases ps with
    | nil => exact absurd rfl hpne
    | cons a l => exact ⟨a, l, rfl⟩
  unfold prosOf
  have hbody : bodyMid (p0 :: ps') cs ++ B =
      'P' :: 'r' :: 'o' :: 's' :: ':' :: '\n' ::
        (captN (p0 :: ps') ++ ('\n' :: (chars ("Cons:") ++ (ptN cs ++ B)))) := by
    show chars ("Pros:") ++ ptN (p0 :: ps') ++ '\n' :: (chars ("Cons:") ++ ptN cs) ++ B = _
    rw [ptN_eq_cons]
    show 'P' :: 'r' :: 'o' :: 's' :: ':' :: [] ++ _ ++ _ ++ _ = _
    simp
  rw [hbody]
  have hnoHit : noHit stopPros (captN (p0 :: ps'))
      ('\n' :: (chars ("Cons:") ++ (ptN cs ++ B))) :=
    (noHit_stop_bullets stopPros (fun c t h => stopPros_ne_nl h) stopPros_nl_dash
      (p0 :: ps') _ hps).2
  have hstop : stopPros ('\n' :: (chars ("Cons:") ++ (ptN cs ++ B))) = true := rfl
  have hcap : tryCaps (capSection isSepCS stopPros)
      (lbl1 ("Pros") ('P' :: 'r' :: 'o' :: 's' :: ':' :: '\n' ::
        (captN (p0 :: ps') ++ ('\n' :: (chars ("Cons:") ++ (ptN cs ++ B)))))) =
      some ((scanToStop stopPros
        (captN (p0 :: ps') ++ ('\n' :: (chars ("Cons:") ++ (ptN cs ++ B))))).1,
        (scanToStop stopPros
        (captN (p0 :: ps') ++ ('\n' :: (chars ("Cons:") ++ (ptN cs ++ B))))).2) := rfl
  rw [scanField_hit hcap]
  rw [scanToStop_append hnoHit, scanToStop_of_stop hstop]
  rw [List.append_nil]
  exact bulletItems_captN hps hpne

theorem consOf_body {ps cs : List String} {B : List Char}
    (hps : ∀ b ∈ ps, safeBullet b = true) (hcs : ∀ b ∈ cs, safeBullet b = true)
    (hpne : ps ≠ []) (hcne : cs ≠ []) (hB : B = [] ∨ B = ['\n']) :
    consOf (bodyMid ps cs ++ B) = cs := by
  obtain ⟨c0, cs', rfl⟩ : ∃ c0 cs', cs = c0 :: cs' := by
    cases cs with
    | nil => exact absurd rfl hcne
    | cons a l => exact ⟨a, l, rfl⟩
  unfold consOf
  have hCp : chars ("Cons") = 'C' :: chars ("ons") := rfl
  have hnlC : ∀ X, startsCI (chars ("Cons")) ('\n' :: X) = false := fun X => by
    rw [hCp]; exact startsCI_head_mismatch _ (by decide) X
  have hdaC : ∀ X, startsCI (chars ("Cons")) ('-' :: X) = false := fun X => by
    rw [hCp]; exact startsCI_head_mismatch _ (by decide) X
  have hspC : ∀ X, startsCI (chars ("Cons")) (' ' :: X) = false := fun X => by
    rw [hCp]; exact startsCI_head_mismatch _ (by decide) X
  have hbody : bodyMid ps (c0 :: cs') ++ B =
      ('P' :: 'r' :: 'o' :: 's' :: ':' :: (ptN ps ++ ['\n'])) ++
        (chars ("Cons:") ++ (ptN (c0 :: cs') ++ B)) := by
    show chars ("Pros:") ++ ptN ps ++ '\n' :: (chars ("Cons:") ++ ptN (c0 :: cs')) ++ B = _
    show 'P' :: 'r' :: 'o' :: 's' :: ':' :: [] ++ _ ++ _ ++ _ = _
    simp
  rw [hbody]
  have hno : noHit (fun l => startsCI (chars ("Cons")) l)
      ('P' :: 'r' :: 'o' :: 's' :: ':' :: (ptN ps ++ ['\n']))
      (chars ("Cons:") ++ (ptN (c0 :: cs') ++ B)) := by
    refine noHit_cons (by rw [hCp]; exact startsCI_head_mismatch _ (by decide) _) ?_
    refine noHit_cons (by rw [hCp]; exact startsCI_head_mismatch _ (by decide) _) ?_
    refine noHit_cons (by rw [hCp]; exact startsCI_head_mismatch _ (by decide) _) ?_
    refine noHit_cons (by rw [hCp]; exact startsCI_head_mismatch _ (by decide) _) ?_
    refine noHit_cons (by rw [hCp]; exact startsCI_head_mismatch _ (by decide) _) ?_
    refine noHit_append ?_ ?_
    · exact noHit_startsCI_ptN (by decide) hnlC hdaC hspC
        (fun b hb => (safeBullet_occ (hps b hb)).2.2.2) (Or.inr ⟨_, rfl⟩)
    · exact noHit_cons (hnlC _) (noHit_nil _ _)
  rw [scanField_append (fun n hn => tryCaps_lbl1_none (hno n hn))]
  have hnoHit2 : noHit stopCons (captN (c0 :: cs')) B :=
    (noHit_stop_bullets stopCons (fun c t h => stopCons_ne_nl h) stopCons_nl_dash
      (c0 :: cs') _ hcs).2
  have hend : scanToStop stopCons B = ([], B) := by
    rcases hB with rfl | rfl
    · rfl
    · exact scanToStop_of_stop rfl
  have hcap : tryCaps (capSection isSepCS stopCons)
      (lbl1 ("Cons") (chars ("Cons:") ++ (ptN (c0 :: cs') ++ B))) =
      some ((scanToStop stopCons (captN (c0 :: cs') ++ B)).1,
        (scanToStop stopCons (captN (c0 :: cs') ++ B)).2) := rfl
  have hCc : chars ("Cons:") ++ (ptN (c0 :: cs') ++ B) =
      'C' :: 'o' :: 'n' :: 's' :: ':' :: (ptN (c0 :: cs') ++ B) := rfl
  rw [hCc]
  rw [scanField_hit (by rw [← hCc]; exact hcap)]
  rw [scanToStop_append hnoHit2, hend, List.append_nil]
  exact bulletItems_captN hcs hcne

/-! ### Segmenting the canonical five-strategy document (C9) -/

theorem startsCI_mismatch2 {p1 p2 : Char} (pr : List Char) {c2 : Char}
    (h : ¬ (lc p2 = lc c2)) (c1 : Char) (X : List Char) :
    startsCI (p1 :: p2 :: pr) (c1 :: c2 :: X) = false := by
  rw [startsCI_cons, startsCI_head_mismatch pr h X]
  simp

theorem noHit_pat_bodyMid {pat : List Char} {ps cs : List String} {B : List Char}
    (hpat : pat.all (fun c => ¬ (lc c = '\n')) = true)
    (hnl : ∀ X, startsCI pat ('\n' :: X) = false)
    (hda : ∀ X, startsCI pat ('-' :: X) = false)
    (hsp : ∀ X, startsCI pat (' ' :: X) = false)
    (hPros : ∀ X, startsCI pat ('P' :: 'r' :: 'o' :: 's' :: ':' :: X) = false ∧
      startsCI pat ('r' :: 'o' :: 's' :: ':' :: X) = false ∧
      startsCI pat ('o' :: 's' :: ':' :: X) = false ∧
      startsCI pat ('s' :: ':' :: X) = false ∧
      startsCI pat (':' :: X) = false)
    (hCons : ∀ X, startsCI pat ('C' :: 'o' :: 'n' :: 's' :: ':' :: X) = false ∧
      startsCI pat ('o' :: 'n' :: 's' :: ':' :: X) = false ∧
      startsCI pat ('n' :: 's' :: ':' :: X) = false ∧
      startsCI pat ('s' :: ':' :: X) = false ∧
      startsCI pat (':' :: X) = false)
    (hbulp : ∀ b ∈ ps, occursCI pat (chars b) = false)
    (hbulc : ∀ b ∈ cs, occursCI pat (chars b) = false)
    (hB : B = [] ∨ ∃ B', B = '\n' :: B') :
    noHit (fun l => startsCI pat l) (bodyMid ps cs) B := by
  have hA : bodyMid ps cs = 'P' :: 'r' :: 'o' :: 's' :: ':' ::
      (ptN ps ++ ('\n' :: ('C' :: 'o' :: 'n' :: 's' :: ':' :: ptN cs))) := by
    show chars ("Pros:") ++ ptN ps ++ '\n' :: (chars ("Cons:") ++ ptN cs) = _
    show 'P' :: 'r' :: 'o' :: 's' :: ':' :: ([] : List Char) ++ ptN ps ++
      '\n' :: ('C' :: 'o' :: 'n' :: 's' :: ':' :: ([] : List Char) ++ ptN cs) = _
    simp
  rw [hA]
  refine noHit_cons ((hPros _).1) (noHit_cons ((hPros _).2.1) (noHit_cons ((hPros _).2.2.1)
    (noHit_cons ((hPros _).2.2.2.1) (noHit_cons ((hPros _).2.2.2.2) ?_))))
  refine noHit_append ?_ ?_
  · exact noHit_startsCI_ptN hpat hnl hda hsp hbulp (Or.inr ⟨_, rfl⟩)
  · refine noHit_cons (hnl _) (noHit_cons ((hCons _).1) (noHit_cons ((hCons _).2.1)
      (noHit_cons ((hCons _).2.2.1) (noHit_cons ((hCons _).2.2.2.1)
      (noHit_cons ((hCons _).2.2.2.2) ?_)))))
    exact noHit_startsCI_ptN hpat hnl hda hsp hbulc hB

theorem noHit_stopStrat_bodyMid {ps cs : List String} {B : List Char}
    (hps : ∀ b ∈ ps, safeBullet b = true)
    (hcs : ∀ b ∈ cs, safeBullet b = true)
    (hB : ∃ B', B = '\n' :: B') :
    noHit stopStrat (bodyMid ps cs) B := by
  have hS : chars ("Strategy") = 'S' :: 't' :: chars ("rategy") := rfl
  have hR : chars ("RECOMMENDATION") = 'R' :: 'E' :: chars ("COMMENDATION") := rfl
  have hH : chars ("## RECOMMENDATION") = '#' :: '#' :: chars (" RECOMMENDATION") := rfl
  have hBne : B ≠ [] := by obtain ⟨B', rfl⟩ := hB; exact fun h => List.noConfusion h
  refine noHit_stopStrat_of ?_ ?_ ?_ hBne
  · refine noHit_pat_bodyMid (by decide) ?_ ?_ ?_ ?_ ?_
      (fun b hb => (safeBullet_occ (hps b hb)).1)
      (fun b hb => (safeBullet_occ (hcs b hb)).1) (Or.inr hB)
    · intro X; rw [hS]; exact startsCI_head_mismatch _ (by decide) _
    · intro X; rw [hS]; exact startsCI_head_mismatch _ (by decide) _
    · intro X; rw [hS]; exact startsCI_head_mismatch _ (by decide) _
    · intro X
      rw [hS]
      exact ⟨startsCI_head_mismatch _ (by decide) _, startsCI_head_mismatch _ (by decide) _,
        startsCI_head_mismatch _ (by decide) _, startsCI_mismatch2 _ (by decide) _ _,
        startsCI_head_mismatch _ (by decide) _⟩
    · intro X
      rw [hS]
      exact ⟨startsCI_head_mismatch _ (by decide) _, startsCI_head_mismatch _ (by decide) _,
        startsCI_head_mismatch _ (by decide) _, startsCI_mismatch2 _ (by decide) _ _,
        startsCI_head_mismatch _ (by decide) _⟩
  · refine noHit_pat_bodyMid (by decide) ?_ ?_ ?_ ?_ ?_
      (fun b hb => (safeBullet_occ (hps b hb)).2.1)
      (fun b hb => (safeBullet_occ (hcs b hb)).2.1) (Or.inr hB)
    · intro X; rw [hR]; exact startsCI_head_mismatch _ (by decide) _
    · intro X; rw [hR]; exact startsCI_head_mismatch _ (by decide) _
    · intro X; rw [hR]; exact startsCI_head_mismatch _ (by decide) _
    · intro X
      rw [hR]
      exact ⟨startsCI_head_mismatch _ (by decide) _, startsCI_mismatch2 _ (by decide) _ _,
        startsCI_head_mismatch _ (by decide) _, startsCI_head_mismatch _ (by decide) _,
        startsCI_head_mismatch _ (by decide) _⟩
    · intro X
      rw [hR]
      exact ⟨startsCI_head_mismatch _ (by decide) _, startsCI_head_mismatch _ (by decide) _,
        startsCI_head_mismatch _ (by decide) _, startsCI_head_mismatch _ (by decide) _,
        startsCI_head_mismatch _ (by decide) _⟩
  · refine noHit_pat_bodyMid (by decide) ?_ ?_ ?_ ?_ ?_
      (fun b hb => (safeBullet_occ (hps b hb)).2.2.1)
      (fun b hb => (safeBullet_occ (hcs b hb)).2.2.1) (Or.inr hB)
    · intro X; rw [hH]; exact startsCI_head_mismatch _ (by decide) _
    · intro X; rw [hH]; exact startsCI_head_mismatch _ (by decide) _
    · intro X; rw [hH]; exact startsCI_head_mismatch _ (by decide) _
    · intro X
      rw [hH]
      exact ⟨startsCI_head_mismatch _ (by decide) _, startsCI_head_mismatch _ (by decide) _,
        startsCI_head_mismatch _ (by decide) _, startsCI_head_mismatch _ (by decide) _,
        startsCI_head_mismatch _ (by decide) _⟩
    · intro X
      rw [hH]
      exact ⟨startsCI_head_mismatch _ (by decide) _, startsCI_head_mismatch _ (by decide) _,
        startsCI_head_mismatch _ (by decide) _, startsCI_head_mismatch _ (by decide) _,
        startsCI_head_mismatch _ (by decide) _⟩

theorem noHit_stopStrat_nl {B : List Char} (hB : B ≠ []) : noHit stopStrat ['\n'] B := by
  refine noHit_cons ?_ (noHit_nil _ _)
  refine stopStrat_eq_false ?_ ?_ ?_ ?_
  · rw [show chars ("Strategy") = 'S' :: chars ("trategy") from rfl]
    exact startsCI_head_mismatch _ (by decide) _
  · rw [show chars ("RECOMMENDATION") = 'R' :: chars ("ECOMMENDATION") from rfl]
    exact startsCI_head_mismatch _ (by decide) _
  · rw [show chars ("## RECOMMENDATION") = '#' :: chars ("# RECOMMENDATION") from rfl]
    exact startsCI_head_mismatch _ (by decide) _
  · apply dollarAt_false_of_len
    cases B with
    | nil => exact absurd rfl hB
    | cons x xs => simp

theorem noHit_stopStrat_bodyCore {ps cs : List String} {B : List Char}
    (hps : ∀ b ∈ ps, safeBullet b = true)
    (hcs : ∀ b ∈ cs, safeBullet b = true)
    (hB : B ≠ []) : noHit stopStrat (bodyCore ps cs) B :=
  noHit_append (noHit_stopStrat_bodyMid hps hcs ⟨B, rfl⟩) (noHit_stopStrat_nl hB)

theorem scanToStop_bodyCore {ps cs : List String} {R : List Char}
    (hps : ∀ b ∈ ps, safeBullet b = true)
    (hcs : ∀ b ∈ cs, safeBullet b = true)
    (hstop : stopStrat R = true) (hR : R ≠ []) :
    scanToStop stopStrat (bodyCore ps cs ++ R) = (bodyCore ps cs, R) := by
  rw [scanToStop_append (noHit_stopStrat_bodyCore hps hcs hR), scanToStop_of_stop hstop]
  rw [List.append_nil]

theorem scanToStop_bodyLast {ps cs : List String}
    (hps : ∀ b ∈ ps, safeBullet b = true)
    (hcs : ∀ b ∈ cs, safeBullet b = true) :
    scanToStop stopStrat (bodyCore ps cs) = (bodyMid ps cs, ['\n']) := by
  show scanToStop stopStrat (bodyMid ps cs ++ ['\n']) = _
  rw [scanToStop_append (noHit_stopStrat_bodyMid hps hcs ⟨[], rfl⟩),
    scanToStop_of_stop (show stopStrat ['\n'] = true from rfl)]
  rw [List.append_nil]

theorem tryStratAt_h1 (Y : List Char) :
    tryStratAt (chars ("Strategy 1: Plan\n") ++ Y) =
      some ((['1'], (scanToStop stopStrat Y).1), (scanToStop stopStrat Y).2) := rfl

theorem tryStratAt_h2 (Y : List Char) :
    tryStratAt (chars ("Strategy 2: Plan\n") ++ Y) =
      some ((['2'], (scanToStop stopStrat Y).1), (scanToStop stopStrat Y).2) := rfl

theorem tryStratAt_h3 (Y : List Char) :
    tryStratAt (chars ("Strategy 3: Plan\n") ++ Y) =
      some ((['3'], (scanToStop stopStrat Y).1), (scanToStop stopStrat Y).2) := rfl

theorem tryStratAt_h4 (Y : List Char) :
    tryStratAt (chars ("Strategy 4: Plan\n") ++ Y) =
      some ((['4'], (scanToStop stopStrat Y).1), (scanToStop stopStrat Y).2) := rfl

theorem tryStratAt_h5 (Y : List Char) :
    tryStratAt (chars ("Strategy 5: Plan\n") ++ Y) =
      some ((['5'], (scanToStop stopStrat Y).1), (scanToStop stopStrat Y).2) := rfl

theorem stratLoopF_step (f : Nat) {cs : List Char} {m : List Char × List Char}
    {rest : List Char} (h : tryStratAt cs = some (m, rest)) :
    stratLoopF (f + 1) cs = m :: stratLoopF f rest := by
  rw [stratLoopF_succ, h]

theorem stratLoopF_nil (f : Nat) : stratLoopF f [] = [] := by
  cases f <;> rfl

theorem stratLoopF_nl (f : Nat) : stratLoopF (f + 1) ['\n'] = [] := by
  show stratLoopF f [] = []
  exact stratLoopF_nil f

theorem tryStrat_block1 {p c : List String} {R : List Char}
    (hp : ∀ b ∈ p, safeBullet b = true) (hc : ∀ b ∈ c, safeBullet b = true)
    (hstop : stopStrat R = true) (hR : R ≠ []) :
    tryStratAt (chars ("Strategy 1: Plan\n") ++ (bodyCore p c ++ R)) =
      some ((['1'], bodyCore p c), R) := by
  rw [tryStratAt_h1, scanToStop_bodyCore hp hc hstop hR]

theorem tryStrat_block2 {p c : List String} {R : List Char}
    (hp : ∀ b ∈ p, safeBullet b = true) (hc : ∀ b ∈ c, safeBullet b = true)
    (hstop : stopStrat R = true) (hR : R ≠ []) :
    tryStratAt (chars ("Strategy 2: Plan\n") ++ (bodyCore p c ++ R)) =
      some ((['2'], bodyCore p c), R) := by
  rw [tryStratAt_h2, scanToStop_bodyCore hp hc hstop hR]

theorem tryStrat_block3 {p c : List String} {R : List Char}
    (hp : ∀ b ∈ p, safeBullet b = true) (hc : ∀ b ∈ c, safeBullet b = true)
    (hstop : stopStrat R = true) (hR : R ≠ []) :
    tryStratAt (chars ("Strategy 3: Plan\n") ++ (bodyCore p c ++ R)) =
      some ((['3'], bodyCore p c), R) := by
  rw [tryStratAt_h3, scanToStop_bodyCore hp hc hstop hR]

theorem tryStrat_block4 {p c : List String} {R : List Char}
    (hp : ∀ b ∈ p, safeBullet b = true) (hc : ∀ b ∈ c, safeBullet b = true)
    (hstop : stopStrat R = true) (hR : R ≠ []) :
    tryStratAt (chars ("Strategy 4: Plan\n") ++ (bodyCore p c ++ R)) =
      some ((['4'], bodyCore p c), R) := by
  rw [tryStratAt_h4, scanToStop_bodyCore hp hc hstop hR]

theorem tryStrat_block5 {p c : List String}
    (hp : ∀ b ∈ p, safeBullet b = true) (hc : ∀ b ∈ c, safeBullet b = true) :
    tryStratAt (chars ("Strategy 5: Plan\n") ++ bodyCore p c) =
      some ((['5'], bodyMid p c), ['\n']) := by
  rw [tryStratAt_h5, scanToStop_bodyLast hp hc]

theorem stratLoop_c9 {p1 c1 p2 c2 p3 c3 p4 c4 p5 c5 : List String}
    (h1p : ∀ b ∈ p1, safeBullet b = true) (h1c : ∀ b ∈ c1, safeBullet b = true)
    (h2p : ∀ b ∈ p2, safeBullet b = true) (h2c : ∀ b ∈ c2, safeBullet b = true)
    (h3p : ∀ b ∈ p3, safeBullet b = true) (h3c : ∀ b ∈ c3, safeBullet b = true)
    (h4p : ∀ b ∈ p4, safeBullet b = true) (h4c : ∀ b ∈ c4, safeBullet b = true)
    (h5p : ∀ b ∈ p5, safeBullet b = true) (h5c : ∀ b ∈ c5, safeBullet b = true) :
    stratLoop (c9doc p1 c1 p2 c2 p3 c3 p4 c4 p5 c5) =
      [(['1'], bodyCore p1 c1), (['2'], bodyCore p2 c2), (['3'], bodyCore p3 c3),
       (['4'], bodyCore p4 c4), (['5'], bodyMid p5 c5)] := by
  have hdoc : c9doc p1 c1 p2 c2 p3 c3 p4 c4 p5 c5 =
      chars ("Strategy 1: Plan\n") ++ (bodyCore p1 c1 ++
        (chars ("Strategy 2: Plan\n") ++ (bodyCore p2 c2 ++
        (chars ("Strategy 3: Plan\n") ++ (bodyCore p3 c3 ++
        (chars ("Strategy 4: Plan\n") ++ (bodyCore p4 c4 ++
        (chars ("Strategy 5: Plan\n") ++ bodyCore p5 c5)))))))) := by
    unfold c9doc
    simp [List.append_assoc]
  have key : ∀ f, stratLoopF (f + 7) (c9doc p1 c1 p2 c2 p3 c3 p4 c4 p5 c5) =
      [(['1'], bodyCore p1 c1), (['2'], bodyCore p2 c2), (['3'], bodyCore p3 c3),
       (['4'], bodyCore p4 c4), (['5'], bodyMid p5 c5)] := by
    intro f
    rw [hdoc]
    show stratLoopF (f + 6 + 1) _ = _
    rw [stratLoopF_step (f + 6) (tryStrat_block1 h1p h1c (by rfl)
      (fun h => List.noConfusion h))]
    refine congrArg (List.cons _) ?_
    show stratLoopF (f + 5 + 1) _ = _
    rw [stratLoopF_step (f + 5) (tryStrat_block2 h2p h2c (by rfl)
      (fun h => List.noConfusion h))]
    refine congrArg (List.cons _) ?_
    show stratLoopF (f + 4 + 1) _ = _
    rw [stratLoopF_step (f + 4) (tryStrat_block3 h3p h3c (by rfl)
      (fun h => List.noConfusion h))]
    refine congrArg (List.cons _) ?_
    show stratLoopF (f + 3 + 1) _ = _
    rw [stratLoopF_step (f + 3) (tryStrat_block4 h4p h4c (by rfl)
      (fun h => List.noConfusion h))]
    refine congrArg (List.cons _) ?_
    show stratLoopF (f + 2 + 1) _ = _
    rw [stratLoopF_step (f + 2) (tryStrat_block5 h5p h5c)]
    refine congrArg (List.cons _) ?_
    show stratLoopF (f + 1 + 1) ['\n'] = _
    exact stratLoopF_nl (f + 1)
  have hlen : 6 ≤ (c9doc p1 c1 p2 c2 p3 c3 p4 c4 p5 c5).length := by
    rw [hdoc]
    simp [chars]
  unfold stratLoop
  have hf : (c9doc p1 c1 p2 c2 p3 c3 p4 c4 p5 c5).length + 1 =
      ((c9doc p1 c1 p2 c2 p3 c3 p4 c4 p5 c5).length - 6) + 7 := by omega
  rw [hf]
  exact key _

/-- C9: for a five-strategy document whose blocks each carry a `Pros:` and
a `Cons:` bullet list (rendered canonically, with bullets that are
well-formed lines), `parse_strategies_output` returns exactly five records
whose `pros` and `cons` lists are exactly the bullet lines of the
respective sections, in order, stripped of their leading `- ` markers. -/
theorem c9_strategies_pros_cons {p1 c1 p2 c2 p3 c3 p4 c4 p5 c5 : List String}
    (h1p : ∀ b ∈ p1, safeBullet b = true) (h1c : ∀ b ∈ c1, safeBullet b = true)
    (h2p : ∀ b ∈ p2, safeBullet b = true) (h2c : ∀ b ∈ c2, safeBullet b = true)
    (h3p : ∀ b ∈ p3, safeBullet b = true) (h3c : ∀ b ∈ c3, safeBullet b = true)
    (h4p : ∀ b ∈ p4, safeBullet b = true) (h4c : ∀ b ∈ c4, safeBullet b = true)
    (h5p : ∀ b ∈ p5, safeBullet b = true) (h5c : ∀ b ∈ c5, safeBullet b = true)
    (n1p : p1 ≠ []) (n1c : c1 ≠ []) (n2p : p2 ≠ []) (n2c : c2 ≠ [])
    (n3p : p3 ≠ []) (n3c : c3 ≠ []) (n4p : p4 ≠ []) (n4c : c4 ≠ [])
    (n5p : p5 ≠ []) (n5c : c5 ≠ []) :
    ∃ l, parse_strategies_outputE
        (String.mk (c9doc p1 c1 p2 c2 p3 c3 p4 c4 p5 c5)) = Except.ok l ∧
      l.map (fun s => (s.strategy_number, s.pros, s.cons)) =
        [(1, p1, c1), (2, p2, c2), (3, p3, c3), (4, p4, c4), (5, p5, c5)] := by
  refine ⟨_, parse_strategies_eq_map _, ?_⟩
  have hcm : chars (String.mk (c9doc p1 c1 p2 c2 p3 c3 p4 c4 p5 c5)) =
      c9doc p1 c1 p2 c2 p3 c3 p4 c4 p5 c5 := rfl
  rw [hcm, stratLoop_c9 h1p h1c h2p h2c h3p h3c h4p h4c h5p h5c]
  have e1p : prosOf (bodyCore p1 c1) = p1 := prosOf_body h1p n1p (Or.inr rfl)
  have e1c : consOf (bodyCore p1 c1) = c1 := consOf_body h1p h1c n1p n1c (Or.inr rfl)
  have e2p : prosOf (bodyCore p2 c2) = p2 := prosOf_body h2p n2p (Or.inr rfl)
  have e2c : consOf (bodyCore p2 c2) = c2 := consOf_body h2p h2c n2p n2c (Or.inr rfl)
  have e3p : prosOf (bodyCore p3 c3) = p3 := prosOf_body h3p n3p (Or.inr rfl)
  have e3c : consOf (bodyCore p3 c3) = c3 := consOf_body h3p h3c n3p n3c (Or.inr rfl)
  have e4p : prosOf (bodyCore p4 c4) = p4 := prosOf_body h4p n4p (Or.inr rfl)
  have e4c : consOf (bodyCore p4 c4) = c4 := consOf_body h4p h4c n4p n4c (Or.inr rfl)
  have e5p : prosOf (bodyMid p5 c5) = p5 := by
    have h := @prosOf_body p5 c5 [] h5p n5p (Or.inl rfl)
    rwa [List.append_nil] at h
  have e5c : consOf (bodyMid p5 c5) = c5 := by
    have h := @consOf_body p5 c5 [] h5p h5c n5p n5c (Or.inl rfl)
    rwa [List.append_nil] at h
  have d1 : natOfDigits ['1'] = 1 := rfl
  have d2 : natOfDigits ['2'] = 2 := rfl
  have d3 : natOfDigits ['3'] = 3 := rfl
  have d4 : natOfDigits ['4'] = 4 := rfl
  have d5 : natOfDigits ['5'] = 5 := rfl
  simp only [List.map_cons, List.map_nil, buildStrategy,
    e1p, e1c, e2p, e2c, e3p, e3c, e4p, e4c, e5p, e5c, d1, d2, d3, d4, d5]

theorem c9_strategies_pros_cons_witness :
    ∃ l, parse_strategies_outputE (String.mk (c9doc ["alpha"] ["beta"] ["gamma"]
        ["delta"] ["epsilon"] ["zeta"] ["eta"] ["theta"] ["iota"] ["kappa"])) =
        Except.ok l ∧
      l.map (fun s => (s.strategy_number, s.pros, s.cons)) =
        [(1, ["alpha"], ["beta"]), (2, ["gamma"], ["delta"]),
         (3, ["epsilon"], ["zeta"]), (4, ["eta"], ["theta"]),
         (5, ["iota"], ["kappa"])] :=
  c9_strategies_pros_cons (by decide) (by decide) (by decide) (by decide)
    (by decide) (by decide) (by decide) (by decide) (by decide) (by decide)
    (by decide) (by decide) (by decide) (by decide) (by decide) (by decide)
    (by decide) (by decide) (by decide) (by decide)

end ContentParser

